import Mathlib

/-!
Verification of the btrview subvolume core: the Subvolume data model
(src/btrview/subvolume.py), the sieve registry and forest builder
(src/btrview/btrfs.py), the deleted-ancestor synthesizer
(src/btrview/btrfs.py together with src/btrview/btr_dict.py), and the
forest sorter (src/btrview/rich_output.py).

The Python code is shallowly embedded: `props` dictionaries become records
of optional strings, Python raised exceptions become `Except` results, the
`treelib` trees used by the forest builder become flat node lists, and the
trees used by the sorter become rose trees.  Recursion that Python runs on
the call stack is modelled with an explicit fuel argument so that every
definition is executable; theorems show the fuel suffices.
-/

namespace Btrview

/-! ## Python value helpers -/

/-- Truthiness of a Python `str | None` value: `None` and `""` are falsy. -/
def pyTruthyStr : Option String → Bool
  | none => false
  | some s => s ≠ ""

/-- Python `a or b` on `str | None` values: the first operand when truthy,
otherwise the second. -/
def pyOr (a b : Option String) : Option String :=
  if pyTruthyStr a then a else b

/-- Python `x or ""` on a `str | None` value.  Both `None` and `""` map to
`""`, which is exactly `Option.getD` here since `some "" `also maps to `""`. -/
def orEmpty : Option String → String
  | none => ""
  | some s => s

/-- Python `str(x)` on a `str | None` value: `None` prints as `"None"`. -/
def pyStrOpt : Option String → String
  | none => "None"
  | some s => s

/-! ## Strings and POSIX paths

`pathlib.PurePath`/`Path` values are modelled as their raw strings; the
constructor-time normalization (collapsing repeated slashes and single
dots) is applied by `normStr`, and `Path` equality compares normalized
forms via parsed components (`rootedParts`).  All character-level helpers
are structural recursions over `List Char` so that concrete runs reduce in
the kernel. -/

/-- Split a character list on `/`. -/
def splitSlash : List Char → List (List Char)
  | [] => [[]]
  | c :: cs =>
    let rest := splitSlash cs
    if c = '/' then [] :: rest
    else
      match rest with
      | [] => [[c]]
      | p :: ps => (c :: p) :: ps

/-- The path components of a string, as `pathlib` parses them: empty
segments (repeated slashes) and `"."` segments are dropped. -/
def pathComps (s : String) : List (List Char) :=
  (splitSlash s.data).filter (fun p => p ≠ [] ∧ p ≠ ['.'])

/-- Whether the path string is absolute. -/
def pathIsAbs (s : String) : Bool :=
  match s.data with
  | '/' :: _ => true
  | _ => false

/-- Components with a leading root marker for absolute paths, mirroring
`PurePath.parts` (the anchor `"/"` is the first part of an absolute path). -/
def rootedParts (s : String) : List (List Char) :=
  (if pathIsAbs s then [['/']] else []) ++ pathComps s

/-- Equality of `pathlib` path objects: normalized forms coincide. -/
def pathEq (a b : String) : Bool :=
  rootedParts a = rootedParts b

/-- Interleave a separator character between component lists. -/
def joinComps : List (List Char) → List Char
  | [] => []
  | [p] => p
  | p :: q :: ps => p ++ '/' :: joinComps (q :: ps)

/-- The string form `str(PurePath(s))`: components joined by `/`, with the
leading `/` for absolute paths and `"."` for an empty relative path. -/
def normStr (s : String) : String :=
  let comps := pathComps s
  if pathIsAbs s then ⟨'/' :: joinComps comps⟩
  else if comps = [] then "."
  else ⟨joinComps comps⟩

/-- A leading-segment test on component lists (used by `is_relative_to`). -/
def leadingSegOf : List (List Char) → List (List Char) → Bool
  | [], _ => true
  | _ :: _, [] => false
  | p :: ps, q :: qs => p = q && leadingSegOf ps qs

/-- `PurePath(p).is_relative_to(q)`: the parts of `q` lead the parts of `p`. -/
def isRelativeTo (p q : String) : Bool :=
  leadingSegOf (rootedParts q) (rootedParts p)

/-- Replace the first occurrence of the pattern, for a non-empty pattern
(`str.replace(pat, rep, 1)`). -/
def replFirstAux (pat rep : List Char) : List Char → List Char
  | [] => []
  | c :: cs =>
    if pat.isPrefixOf (c :: cs) then rep ++ (c :: cs).drop pat.length
    else c :: replFirstAux pat rep cs

/-- Python `s.replace(pat, rep, 1)`.  An empty pattern matches at the start
of the string. -/
def pyReplaceFirst (s pat rep : String) : String :=
  if pat.data = [] then ⟨rep.data ++ s.data⟩
  else ⟨replFirstAux pat.data rep.data s.data⟩

/-! ## Mounts (src/btrview/subvolume.py, class Mount) -/

/-- A btrfs mount, storing the `fsroot` and `target` path strings of the
`Mount` dataclass (the dataclass holds `PurePath`/`Path` objects; `str()`
of those objects is `normStr` of the stored string). -/
structure Mount where
  fsroot : String
  target : String
deriving DecidableEq

/-- `Mount.resolve` from src/btrview/subvolume.py: textual substitution of
the fsroot by the target (with a trailing slash added to the target when
the fsroot is the filesystem root), then one `"//" -> "/"` cleanup. -/
def Mount.resolve (m : Mount) (p : String) : String :=
  let fsroot_str := normStr m.fsroot
  let target_str := normStr m.target
  let target_str := if fsroot_str = "/" then target_str ++ "/" else target_str
  pyReplaceFirst (pyReplaceFirst p fsroot_str target_str) "//" "/"

/-! ## Subvolume (src/btrview/subvolume.py, class Subvolume)

The `props` dictionary is modelled as a record of the optional string
fields the core reads (`self[key]` returns `None` for a missing key).  The
lazy re-query of `btrfs subvolume show` inside `__getitem__` is external
process I/O that only enriches `props`; the embedding models an
already-enriched record. -/

structure Subvolume where
  nameF : Option String
  uuidF : Option String
  parentUuidF : Option String
  receivedUuidF : Option String
  subvolIdF : Option String
  parentIdF : Option String
  btrfsPathF : Option String
  mounts : List Mount
  deleted : Bool
deriving DecidableEq

namespace Subvolume

/-- `Subvolume.id`: the UUID under the `"snap"` scheme, the subvolume ID
under the `"subvol"` scheme, `None` otherwise. -/
def id (s : Subvolume) (kind : String) : Option String :=
  if kind = "snap" then s.uuidF
  else if kind = "subvol" then s.subvolIdF
  else none

/-- `Subvolume.parent`: `Received UUID or Parent UUID` under `"snap"`,
the parent ID under `"subvol"`, `None` otherwise. -/
def parent (s : Subvolume) (kind : String) : Option String :=
  if kind = "snap" then pyOr s.receivedUuidF s.parentUuidF
  else if kind = "subvol" then s.parentIdF
  else none

/-- `Subvolume.paths`: empty when the btrfs path is falsy, otherwise the
btrfs path resolved through every mount whose fsroot it is relative to. -/
def paths (s : Subvolume) : List String :=
  if !pyTruthyStr s.btrfsPathF then []
  else
    let bp := normStr (orEmpty s.btrfsPathF)
    (s.mounts.filter (fun m => isRelativeTo bp (normStr m.fsroot))).map
      (fun m => m.resolve bp)

/-- `Subvolume.path`: raises `NotReachableError` when `paths` is empty,
otherwise returns `paths[0]`. -/
def path (s : Subvolume) : Except String String :=
  match s.paths with
  | [] => .error "NotReachableError"
  | p :: _ => .ok p

/-- `Subvolume.mounted`: `bool(self.paths)`. -/
def mounted (s : Subvolume) : Bool :=
  !s.paths.isEmpty

/-- `Subvolume.mount_points`: the resolved paths that equal some mount
target (`Path` equality, hence `pathEq`). -/
def mount_points (s : Subvolume) : List String :=
  s.paths.filter (fun p => s.mounts.any (fun m => pathEq p m.target))

/-- `Subvolume.__str__`: the name (or the printed UUID when the name is
falsy), with a mount-point suffix when mounted somewhere. -/
def pyStr (s : Subvolume) : String :=
  let base := if pyTruthyStr s.nameF then orEmpty s.nameF else pyStrOpt s.uuidF
  match s.mount_points with
  | [] => base
  | mps => base ++ " on: " ++ String.intercalate ", " (mps.map normStr)

/-- Modelled from the spec: `Subvolume.root_subvolume` is referenced by the
sieve registry in src/btrview/btrfs.py but its definition is not in src/;
per the spec, `isRoot = subvolumeId == ROOT_ID("5")`. -/
def root_subvolume (s : Subvolume) : Bool :=
  s.subvolIdF = some "5"

/-- Modelled from the spec: the boolean `Subvolume.snapshot` attribute is
referenced by the sieve registry in src/btrview/btrfs.py but its definition
is not in src/; per the spec, `isSnapshot = parentUuid is present`. -/
def snapshot (s : Subvolume) : Bool :=
  s.parentUuidF.isSome

end Subvolume

/-- Python `==` on subvolumes (`Subvolume.__eq__` compares `self["UUID"]`
with `other["UUID"]`; `None == None` is true in Python). -/
def pyEqSubvol (a b : Subvolume) : Bool :=
  a.uuidF = b.uuidF

/-- Python `list.remove(x)`: drop the first element equal (`==`, hence
UUID-equal) to `x`.  Python raises `ValueError` when no element matches;
at every call site in the embedded code the element is present (it is the
list head or was found in the list), so the unchanged-list branch is
unreachable there and the function is kept total. -/
def pyRemoveFirst : List Subvolume → Subvolume → List Subvolume
  | [], _ => []
  | y :: ys, x => if pyEqSubvol y x then ys else y :: pyRemoveFirst ys x

/-! ## Sieve registry (src/btrview/btrfs.py, class SubvolumeSieve) -/

namespace SubvolumeSieve

/-- `SubvolumeSieve.SIEVES`: the named sieve dictionary, modelled as an
association list in source order. -/
def SIEVES : List (String × (Subvolume → Bool)) :=
  [ ("deleted", fun s => s.deleted),
    ("root", fun s => s.root_subvolume),
    ("snapshot", fun s => s.snapshot && !s.root_subvolume),
    ("unreachable", fun s => !(s.mounted || s.deleted)),
    ("non-mounts", fun s => s.mount_points.isEmpty) ]

/-- Dictionary lookup in `SIEVES` (`self.SIEVES[s]`). -/
def sievesLookup (n : String) : Option (Subvolume → Bool) :=
  (SIEVES.find? (fun kv => kv.1 = n)).map (fun kv => kv.2)

/-- `SubvolumeSieve.sieve`: collect the subvolumes on which any sieve
fires, then remove them one by one (`list.remove`, first `==` match) from
a copy of the input. -/
def sieve (subvolumes : List Subvolume) (remove_funcs : List (Subvolume → Bool)) :
    List Subvolume :=
  let to_remove := subvolumes.filter (fun sv => remove_funcs.any (fun f => f sv))
  to_remove.foldl (fun copy sv => pyRemoveFirst copy sv) subvolumes

/-- The list comprehension `[self.SIEVES[s] for s in string_sieves]`:
evaluated left to right, raising `KeyError` at the first unknown name. -/
def lookupSieves : List String → Except String (List (Subvolume → Bool))
  | [] => .ok []
  | n :: ns =>
    match sievesLookup n with
    | none => .error n
    | some f =>
      match lookupSieves ns with
      | .error e => .error e
      | .ok fs => .ok (f :: fs)

/-- `SubvolumeSieve.sieve_str`: resolve every name first (a `KeyError`
escapes before `sieve` runs), then sieve. -/
def sieve_str (subvolumes : List Subvolume) (string_sieves : List String) :
    Except String (List Subvolume) :=
  match lookupSieves string_sieves with
  | .error n => .error n
  | .ok sieves => .ok (sieve subvolumes sieves)

end SubvolumeSieve

/-! ## Deleted-ancestor synthesizer (src/btrview/btrfs.py, `Btrfs._get_deleted_subvols`) -/

/-- Modelled from the spec: `Subvolume.from_deleted` is called from
src/btrview/btrfs.py but its definition is not in src/.  The placeholder
prop dictionary is taken from `BtrfsDict.from_deleted` in
src/btrview/btr_dict.py, which builds
`{"UUID": uuid, "Name": uuid, "Subvolume ID": uuid}`; the spec marks the
placeholder as a deleted stand-in, so `deleted` is set. -/
def Subvolume.from_deleted (puuid : String) : Subvolume :=
  { nameF := some puuid, uuidF := some puuid, subvolIdF := some puuid,
    parentUuidF := none, receivedUuidF := none, parentIdF := none,
    btrfsPathF := none, mounts := [], deleted := true }

namespace Btrfs

/-- `Btrfs._get_deleted_subvols`: the uuids present, the truthy lineage
parents referenced, their difference, one placeholder per member.  Python
sets are modelled as deduplicated lists. -/
def get_deleted_subvols (subvols : List Subvolume) : List Subvolume :=
  let uuids : List (Option String) := (subvols.map (fun sv => sv.id "snap")).dedup
  let puuids : List String :=
    (((subvols.filter (fun sv => pyTruthyStr (sv.parent "snap"))).map
      (fun sv => orEmpty (sv.parent "snap")))).dedup
  let deleted_puuids := puuids.filter (fun p => ¬ some p ∈ uuids)
  deleted_puuids.map Subvolume.from_deleted

end Btrfs

/-! ## Forest builder (src/btrview/btrfs.py, `get_tree` / `get_forest`)

A `treelib.Tree` is modelled as the list of its nodes in insertion order;
each node records its tag, identifier, the identifier of its tree parent
(`none` for the root) and its `data` payload.  `create_node` checks for a
duplicate identifier and then for a missing parent, exactly as
`treelib.Tree.add_node` raises `DuplicatedNodeIdError` and then
`NodeIDAbsentError`. -/

structure TNode where
  tag : String
  ident : String
  parentIdent : Option String
  data : Subvolume
deriving DecidableEq

/-- A treelib tree as its node list in insertion order. -/
abbrev BTree := List TNode

/-- Identifier membership, `identifier in tree`. -/
def BTree.containsId (t : BTree) (i : String) : Bool :=
  t.any (fun n => n.ident = i)

/-- Errors the builder can raise: treelib duplicate-identifier and
missing-parent errors, plus exhaustion of the modelling fuel. -/
inductive BErr where
  | dupNode
  | parentMissing
  | fuelOut
deriving DecidableEq

/-- `tree.create_node(tag, ident, parent, data)`: duplicate-identifier
check first, then the parent must be in the tree; the node is appended. -/
def treeCreateNode (t : BTree) (tag ident : String) (pid : Option String)
    (sv : Subvolume) : Except BErr BTree :=
  if t.containsId ident then .error .dupNode
  else
    match pid with
    | some p => if t.containsId p then .ok (t ++ [⟨tag, ident, some p, sv⟩])
                else .error .parentMissing
    | none => .ok (t ++ [⟨tag, ident, none, sv⟩])

/-- `subvol_in_forest`: index of the first tree containing the identifier. -/
def subvol_in_forest (i : String) : List BTree → Option Nat
  | [] => none
  | t :: ts =>
    if t.containsId i then some 0
    else (subvol_in_forest i ts).map (fun k => k + 1)

/-- `subvol_in_list`: the first subvolume whose id under the scheme equals
the given identifier string. -/
def subvol_in_list (i : String) (kind : String) : List Subvolume → Option Subvolume
  | [] => none
  | sv :: svs => if sv.id kind = some i then some sv else subvol_in_list i kind svs

/-- `get_tree` from src/btrview/btrfs.py.  The result is the index of the
tree the subvolume landed in, the shrunken pool, and the updated forest.
The Python call-stack recursion is modelled by the fuel argument; the
`fuelOut` branch is unreachable for fuel at least the pool size. -/
def get_tree (fuel : Nat) (subvol : Subvolume) (subvolumes : List Subvolume)
    (trees : List BTree) (kind : String) :
    Except BErr (Nat × List Subvolume × List BTree) :=
  match fuel with
  | 0 => .error .fuelOut
  | fuel + 1 =>
    let subs1 := pyRemoveFirst subvolumes subvol
    let subvol_id := orEmpty (subvol.id kind)
    let parent_id := orEmpty (subvol.parent kind)
    let name := subvol.pyStr
    match subvol_in_forest parent_id trees with
    | some ti =>
      match treeCreateNode (trees.getD ti []) name subvol_id (some parent_id) subvol with
      | .error e => .error e
      | .ok t' => .ok (ti, subs1, trees.set ti t')
    | none =>
      match subvol_in_list parent_id kind subs1 with
      | some par =>
        match get_tree fuel par subs1 trees kind with
        | .error e => .error e
        | .ok (ti, subs2, trees2) =>
          match treeCreateNode (trees2.getD ti []) name subvol_id (some parent_id) subvol with
          | .error e => .error e
          | .ok t' => .ok (ti, subs2, trees2.set ti t')
      | none =>
        .ok (trees.length, subs1, trees ++ [[⟨name, subvol_id, none, subvol⟩]])

/-- The `while subvolumes:` loop of `get_forest`, with fuel for the loop
itself; each `get_tree` call gets the current pool size as stack fuel. -/
def forest_loop (fuel : Nat) (subvolumes : List Subvolume) (trees : List BTree)
    (kind : String) : Except BErr (List BTree) :=
  match fuel, subvolumes with
  | _, [] => .ok trees
  | 0, _ :: _ => .error .fuelOut
  | fuel + 1, subvol :: rest =>
    match get_tree (subvol :: rest).length subvol (subvol :: rest) trees kind with
    | .error e => .error e
    | .ok (_, pool', trees') => forest_loop fuel pool' trees' kind

/-- `get_forest` from src/btrview/btrfs.py: loop over a copy of the input
until the pool is empty. -/
def get_forest (subvolumes : List Subvolume) (kind : String) :
    Except BErr (List BTree) :=
  forest_loop subvolumes.length subvolumes [] kind

/-! ## Forest sorter (src/btrview/rich_output.py, `ForestDisplay.sort_tree` /
`ForestDisplay.sort_forest`)

The sorter walks whole subtrees (`tree.children`, `tree.subtree`), so here
a treelib tree is modelled as a rose tree, with the child order of a node
being the order in which treelib recorded its children.  The pseudo root
that `sort_forest` creates with `create_node()` has no payload, hence the
optional `data`.  `sort_tree` rebuilds a tree by adding the root, then the
sorted children of each node followed recursively by their subtrees; its
denotation on rose trees sorts each child list (`pySortedBy` models the
stable Python `sorted(..., reverse=...)`) and recurses into the sorted
children.  The Python recursion depth is modelled with fuel. -/

/-- A treelib `Node` as the sorter sees it: identifier, tag and payload
(the pseudo root of `sort_forest` carries no payload). -/
structure RNodeInfo where
  ident : String
  tag : String
  data : Option Subvolume
deriving DecidableEq

mutual
inductive RTree where
  | node : RNodeInfo → RForest → RTree
inductive RForest where
  | nil : RForest
  | cons : RTree → RForest → RForest
end

/-- The root `Node` of a rose tree. -/
def RTree.rootInfo : RTree → RNodeInfo
  | .node info _ => info

/-- The child list of a rose tree's root (`tree.children(tree.root)`). -/
def RTree.childForest : RTree → RForest
  | .node _ cs => cs

/-- Forest to list conversion. -/
def RForest.toList : RForest → List RTree
  | .nil => []
  | .cons t f => t :: f.toList

/-- List to forest conversion. -/
def RForest.ofList : List RTree → RForest
  | [] => .nil
  | t :: ts => .cons t (ofList ts)

mutual
/-- All `Node`s of a tree (root first, then children in order). -/
def RTree.nodeInfos : RTree → List RNodeInfo
  | .node info cs => info :: RForest.nodeInfos cs
/-- All `Node`s of a forest. -/
def RForest.nodeInfos : RForest → List RNodeInfo
  | .nil => []
  | .cons t f => RTree.nodeInfos t ++ RForest.nodeInfos f
end

mutual
/-- The parent/child identifier pairs of a tree. -/
def RTree.edges : RTree → List (String × String)
  | .node info cs => RForest.edgesUnder info.ident cs
/-- The parent/child identifier pairs of a forest under a given parent. -/
def RForest.edgesUnder (p : String) : RForest → List (String × String)
  | .nil => []
  | .cons t f => (p, t.rootInfo.ident) :: (RTree.edges t ++ RForest.edgesUnder p f)
end

mutual
/-- The number of nodes of a tree. -/
def RTree.size : RTree → Nat
  | .node _ cs => RForest.size cs + 1
/-- The number of nodes of a forest. -/
def RForest.size : RForest → Nat
  | .nil => 0
  | .cons t f => RTree.size t + RForest.size f
end

/-- Stable insertion into a sorted list, as Python `sorted` places it: a
new element goes after every element it does not strictly precede
(comparison reversed, but still stable, for `reverse=True`). -/
def insertPy (key : RTree → Int) (rev : Bool) (x : RTree) : List RTree → List RTree
  | [] => [x]
  | y :: ys =>
    if (if rev then key x ≤ key y else key y ≤ key x) then y :: insertPy key rev x ys
    else x :: y :: ys

/-- Python `sorted(l, key=key, reverse=rev)` as a stable insertion sort. -/
def pySortedBy (key : RTree → Int) (rev : Bool) (l : List RTree) : List RTree :=
  l.foldl (fun acc x => insertPy key rev x acc) []

/-- The type of `TreeSorter` key functions: the enclosing tree and a node
of it give an orderable value. -/
abbrev TreeSorter := RTree → RNodeInfo → Int

/-- `ForestDisplay.sort_tree`: the children of the current root are sorted
by `sort_func` applied to the current tree and the child node, then each
child subtree is rebuilt recursively in that order.  Fuel models the
Python recursion depth; with fuel below the depth the remaining subtree is
returned unchanged. -/
def sort_tree (f : TreeSorter) (rev : Bool) : Nat → RTree → RTree
  | 0, t => t
  | fuel + 1, .node info cs =>
    let t := RTree.node info cs
    let sorted := pySortedBy (fun c => f t c.rootInfo) rev cs.toList
    .node info (RForest.ofList (sorted.map (fun c => sort_tree f rev fuel c)))

/-- The `paste` loop of `sort_forest`: each tree is pasted under the pseudo
root, raising `ValueError` when its identifiers overlap the identifiers
already in the pseudo tree. -/
def pasteAll (have_ids : List String) : List RTree → Except String (List String)
  | [] => .ok have_ids
  | t :: ts =>
    let tids := (RTree.nodeInfos t).map (fun n => n.ident)
    if tids.any (fun i => have_ids.contains i) then .error "ValueError"
    else pasteAll (have_ids ++ tids) ts

/-- `ForestDisplay.sort_forest`: paste every tree under a freshly created
pseudo root (`create_node()` generates `pseudoId` and no payload), sort the
pseudo tree, and return the subtrees under the sorted pseudo root. -/
def sort_forest (f : TreeSorter) (rev : Bool) (pseudoId : String)
    (forest : List RTree) : Except String (List RTree) :=
  match pasteAll [pseudoId] forest with
  | .error e => .error e
  | .ok _ =>
    let pseudo := RTree.node ⟨pseudoId, pseudoId, none⟩ (RForest.ofList forest)
    let sorted := sort_tree f rev pseudo.size pseudo
    .ok sorted.childForest.toList

/-! ## Derived notions used by the statements -/

instance {ε α : Type} [DecidableEq ε] [DecidableEq α] : DecidableEq (Except ε α) :=
  fun a b =>
  match a, b with
  | .error e, .error f => decidable_of_iff (e = f) (by simp)
  | .error _, .ok _ => isFalse (by simp)
  | .ok _, .error _ => isFalse (by simp)
  | .ok x, .ok y => decidable_of_iff (x = y) (by simp)

/-- The node identifier a subvolume gets under a scheme
(`subvol.id(kind) or ""`). -/
def effId (kind : String) (sv : Subvolume) : String :=
  orEmpty (sv.id kind)

/-- The payloads of all nodes of a forest. -/
def forestSubvols (trees : List BTree) : List Subvolume :=
  trees.flatMap (fun t => t.map (fun n => n.data))

/-- The node identifiers of all nodes of a forest. -/
def forestIds (trees : List BTree) : List String :=
  trees.flatMap (fun t => t.map (fun n => n.ident))

/-- A forest is orphan-free: whenever a node's payload references a truthy
parent identifier under the scheme, some node of the same tree carries that
identifier. -/
def GoodForest (kind : String) (trees : List BTree) : Prop :=
  ∀ t ∈ trees, ∀ n ∈ t, pyTruthyStr (n.data.parent kind) = true →
    t.containsId (orEmpty (n.data.parent kind)) = true

/-- Orphan-freeness up to a pending set: every truthy parent reference
resolves inside its own tree, except that the tree at index `ti` may still
reference identifiers in `E` (subvolumes higher on the Python call stack,
which attach into that very tree before `get_tree` returns). -/
def GoodExcept (kind : String) (E : List String) (ti : Nat)
    (trees : List BTree) : Prop :=
  ∀ j t, trees[j]? = some t → ∀ n ∈ t,
    pyTruthyStr (n.data.parent kind) = true →
    t.containsId (orEmpty (n.data.parent kind)) = true ∨
      (j = ti ∧ orEmpty (n.data.parent kind) ∈ E)

/-- Every truthy parent referenced from the pool has a carrier: a node
identifier already in the forest, the identifier of a pooled subvolume, or
a pending identifier in `E`. -/
def StackClosure (kind : String) (E : List String) (pool : List Subvolume)
    (trees : List BTree) : Prop :=
  ∀ sv ∈ pool, pyTruthyStr (sv.parent kind) = true →
    orEmpty (sv.parent kind) ∈ forestIds trees ∨
    orEmpty (sv.parent kind) ∈ pool.map (effId kind) ∨
    orEmpty (sv.parent kind) ∈ E

/-- Everything the attach step guarantees on success: the returned pool is
a sublist of the pool minus the attached subvolume, payloads and node
identifiers are conserved between forest and pool, the returned index
points at a tree containing the attached subvolume's identifier, and
orphan-freeness is preserved up to the pending stack. -/
structure AttachOut (kind : String) (subvol : Subvolume)
    (subvolumes : List Subvolume) (trees : List BTree)
    (ti : Nat) (pool' : List Subvolume) (trees' : List BTree) : Prop where
  pool_sub : pool'.Sublist (pyRemoveFirst subvolumes subvol)
  conserv_data :
    (forestSubvols trees' ++ pool').Perm (forestSubvols trees ++ subvolumes)
  conserv_ids :
    (forestIds trees' ++ pool'.map (effId kind)).Perm
      (forestIds trees ++ subvolumes.map (effId kind))
  ti_lt : ti < trees'.length
  ti_contains : (trees'.getD ti []).containsId (effId kind subvol) = true
  len_mono : trees.length ≤ trees'.length
  good : ∀ E : List String, GoodForest kind trees →
    StackClosure kind E subvolumes trees → GoodExcept kind E ti trees'

/-- Spec wording for the synthesizer: `p` is a non-absent lineage-parent
identifier referenced by some input subvolume. -/
def specLineageParentRef (p : String) (subvols : List Subvolume) : Prop :=
  ∃ sv ∈ subvols, sv.parent "snap" = some p ∧ p ≠ ""

/-- Spec wording for the synthesizer: `p` is the uuid of some input
subvolume. -/
def specUuidPresent (p : String) (subvols : List Subvolume) : Prop :=
  ∃ sv ∈ subvols, sv.id "snap" = some p

/-- The nodes of every tree of a rose forest. -/
def rforestInfos (forest : List RTree) : List RNodeInfo :=
  forest.flatMap RTree.nodeInfos

/-- The parent/child identifier pairs of every tree of a rose forest. -/
def rforestEdges (forest : List RTree) : List (String × String) :=
  forest.flatMap RTree.edges

/-! ## Concrete subvolumes and forests used by witnesses and counterexamples -/

/-- A subvolume with a resolvable btrfs path under one mount. -/
def exReachable : Subvolume :=
  ⟨some "data", some "u0", none, none, some "256", some "5", some "/sub",
    [⟨"/", "/mnt"⟩], false⟩

/-- A subvolume with no btrfs path: unreachable. -/
def exUnreachable : Subvolume :=
  ⟨some "gone", some "u1", none, none, some "257", some "5", none, [], false⟩

/-- A subvolume whose btrfs path is the filesystem root, so its resolved
path is exactly the mount target. -/
def exRootPath : Subvolume :=
  ⟨some "top", some "u2", none, none, some "5", none, some "/",
    [⟨"/", "/mnt"⟩], false⟩

/-- Sieve counterexample, first element: uuid `u`, not deleted. -/
def exSieveKeep : Subvolume :=
  ⟨some "s1", some "u", none, none, some "11", none, none, [], false⟩

/-- Sieve counterexample, second element: the same uuid `u`, deleted. -/
def exSieveDrop : Subvolume :=
  ⟨some "s2", some "u", none, none, some "12", none, none, [], true⟩

/-- Sieve witness elements with distinct uuids. -/
def exSieveA : Subvolume :=
  ⟨some "a", some "wa", none, none, some "21", none, none, [], false⟩

/-- Second sieve witness element, a deleted placeholder. -/
def exSieveB : Subvolume :=
  ⟨some "b", some "wb", none, none, some "22", none, none, [], true⟩

/-- Synthesizer counterexample input: a snapshot referencing the missing
lineage parent `X`. -/
def exSnapMissingParent : Subvolume :=
  ⟨some "snap1", some "C", some "X", none, some "31", none, none, [], false⟩

/-- Synthesizer witness input: a snapshot referencing the missing lineage
parent `Y`. -/
def exSnapMissingParentW : Subvolume :=
  ⟨some "snap2", some "D", some "Y", none, some "32", none, none, [], false⟩

/-- Builder counterexample `c`: child whose layout parent is `p`. -/
def exDupC : Subvolume :=
  ⟨some "c", some "uc", none, none, some "1", some "p", none, [], false⟩

/-- Builder counterexample `x`: uuid `u`, layout id `q`, no parent. -/
def exDupX : Subvolume :=
  ⟨some "x", some "u", none, none, some "q", none, none, [], false⟩

/-- Builder counterexample `p`: the same uuid `u`, layout id `p`. -/
def exDupP : Subvolume :=
  ⟨some "p", some "u", none, none, some "p", none, none, [], false⟩

/-- Scenario-A subvolumes: the layout root and two children. -/
def exRoot5 : Subvolume :=
  ⟨some "root", some "r5", none, none, some "5", none, none, [], false⟩

/-- Scenario-A child with layout id 256. -/
def exChild256 : Subvolume :=
  ⟨some "home", some "r6", none, none, some "256", some "5", none, [], false⟩

/-- Scenario-A child with layout id 257. -/
def exChild257 : Subvolume :=
  ⟨some "var", some "r7", none, none, some "257", some "5", none, [], false⟩

/-- Root-rule counterexample: a parentless subvolume with no layout id, so
its node identifier is the empty string. -/
def exNoId : Subvolume :=
  ⟨some "anon", some "ua", none, none, none, none, none, [], false⟩

/-- Root-rule counterexample: a parentless subvolume with layout id `b`. -/
def exPlainB : Subvolume :=
  ⟨some "plain", some "ub", none, none, some "b", none, none, [], false⟩

/-- Snapshot pair for the orphan counterexample: `d` has uuid `u` and
lineage parent `q`. -/
def exSnapD : Subvolume :=
  ⟨some "d", some "u", some "q", none, some "41", none, none, [], false⟩

/-- Snapshot pair for the orphan counterexample: `q` is the parent. -/
def exSnapQ : Subvolume :=
  ⟨some "q", some "q", none, none, some "42", none, none, [], false⟩

/-- Snapshot pair for the orphan counterexample: `e` duplicates uuid `u`
and also references `q`. -/
def exSnapE : Subvolume :=
  ⟨some "e", some "u", some "q", none, some "43", none, none, [], false⟩

/-- A single-node rose tree with the given identifier. -/
def rleaf (i : String) : RTree :=
  .node ⟨i, i, none⟩ .nil

/-- A two-level rose tree used by the sorter witness. -/
def rpair (i j : String) : RTree :=
  .node ⟨i, i, none⟩ (.cons (rleaf j) .nil)

/-! ## C10: `Subvolume.path` raises exactly when `paths` is empty -/

/-- Claim C10: accessing `path` raises `NotReachableError` exactly when the
subvolume's list of resolved paths is empty; otherwise it returns the first
resolved path without error. -/
theorem claim_C10_path_error_iff (s : Subvolume) :
    (s.path = Except.error "NotReachableError" ↔ s.paths = []) ∧
    (∀ p rest, s.paths = p :: rest → s.path = Except.ok p) := by
  constructor
  · rcases h : s.paths with _ | ⟨p, rest⟩ <;> simp [Subvolume.path, h]
  · intro p rest h
    simp [Subvolume.path, h]

/-- Witness for C10 at concrete subvolumes: a reachable one returns its
first resolved path, an unreachable one errors. -/
theorem claim_C10_witness :
    exReachable.path = Except.ok "/mnt/sub" ∧
      exUnreachable.path = Except.error "NotReachableError" :=
  ⟨(claim_C10_path_error_iff exReachable).2 "/mnt/sub" [] (by decide),
    (claim_C10_path_error_iff exUnreachable).1.mpr (by decide)⟩

/-! ## C8: mounted / reachable classification -/

/-- Claim C8, amended: `mounted` holds exactly when the list of resolved
paths (not the list of mount points) is non-empty; the `unreachable` sieve
matches exactly the subvolumes that are neither mounted nor deleted
placeholders; a non-empty mount-point list still implies `mounted`. -/
theorem claim_C8_mounted_amended (s : Subvolume) :
    (s.mounted = true ↔ s.paths ≠ []) ∧
    (∃ f, SubvolumeSieve.sievesLookup "unreachable" = some f ∧
      ∀ s2 : Subvolume, f s2 = !(s2.mounted || s2.deleted)) ∧
    (s.mount_points ≠ [] → s.mounted = true) := by
  refine ⟨?_, ⟨fun s2 => !(s2.mounted || s2.deleted), rfl, fun _ => rfl⟩, ?_⟩
  · rcases h : s.paths with _ | ⟨p, r⟩ <;> simp [Subvolume.mounted, h]
  · intro hmp
    rcases hp : s.paths with _ | ⟨p, r⟩
    · exact absurd (by simp [Subvolume.mount_points, hp]) hmp
    · simp [Subvolume.mounted, hp]

/-- Counterexample to C8 as stated: `exReachable` is mounted although its
mount-point list is empty, so `isMounted` is not equivalent to a non-empty
mount-point set. -/
theorem claim_C8_counterexample :
    exReachable.mounted = true ∧ exReachable.mount_points = [] := by decide

/-- Witness for the amended C8 at a concrete subvolume whose resolved path
equals the mount target. -/
theorem claim_C8_witness :
    exRootPath.mount_points ≠ [] ∧ exRootPath.mounted = true :=
  ⟨by decide, (claim_C8_mounted_amended exRootPath).2.2 (by decide)⟩

/-! ## C7: unknown sieve names fail fast -/

/-- The comprehension that resolves sieve names errors on the first unknown
name, independently of any subvolume. -/
theorem lookupSieves_err (names : List String)
    (h : ∃ n ∈ names, SubvolumeSieve.sievesLookup n = none) :
    ∃ bad, SubvolumeSieve.sievesLookup bad = none ∧
      SubvolumeSieve.lookupSieves names = Except.error bad := by
  induction names with
  | nil => simp at h
  | cons n ns ih =>
    rcases hl : SubvolumeSieve.sievesLookup n with _ | f
    · exact ⟨n, hl, by simp [SubvolumeSieve.lookupSieves, hl]⟩
    · obtain ⟨m, hm, hnone⟩ := h
      rcases List.mem_cons.mp hm with rfl | hm2
      · rw [hl] at hnone
        exact absurd hnone (by simp)
      · obtain ⟨bad, hbad, herr⟩ := ih ⟨m, hm2, hnone⟩
        exact ⟨bad, hbad, by simp [SubvolumeSieve.lookupSieves, hl, herr]⟩

/-- Claim C7: with at least one unknown sieve name, `sieve_str` raises the
`KeyError` before any subvolume is tested or removed: the error it returns
does not depend on the subvolume list at all, and no filtered list is
produced. -/
theorem claim_C7_fail_fast (names : List String)
    (h : ∃ n ∈ names, SubvolumeSieve.sievesLookup n = none) :
    ∃ bad, SubvolumeSieve.sievesLookup bad = none ∧
      ∀ subvolumes : List Subvolume,
        SubvolumeSieve.sieve_str subvolumes names = Except.error bad := by
  obtain ⟨bad, hbad, herr⟩ := lookupSieves_err names h
  exact ⟨bad, hbad, fun subs => by simp [SubvolumeSieve.sieve_str, herr]⟩

/-- Witness for C7 at a concrete name list containing the unknown name
`bogus`. -/
theorem claim_C7_witness :
    ∃ bad, SubvolumeSieve.sievesLookup bad = none ∧
      ∀ subvolumes : List Subvolume,
        SubvolumeSieve.sieve_str subvolumes ["deleted", "bogus"] =
          Except.error bad :=
  claim_C7_fail_fast ["deleted", "bogus"] ⟨"bogus", by decide, rfl⟩

/-! ## C6: the sieve is a pure filter -/

/-- Removing an element whose uuid differs from the head leaves the head. -/
theorem pyRemoveFirst_of_ne (a : Subvolume) (l : List Subvolume) (x : Subvolume)
    (h : x.uuidF ≠ a.uuidF) :
    pyRemoveFirst (a :: l) x = a :: pyRemoveFirst l x := by
  have hb : pyEqSubvol a x = false := by
    simp only [pyEqSubvol, decide_eq_false_iff_not]
    exact fun hh => h hh.symm
  simp [pyRemoveFirst, hb]

/-- Folding removals of elements whose uuids all differ from the head
leaves the head in place. -/
theorem foldlRemove_of_ne (a : Subvolume) (l m : List Subvolume)
    (h : ∀ x ∈ m, x.uuidF ≠ a.uuidF) :
    m.foldl (fun c sv => pyRemoveFirst c sv) (a :: l) =
      a :: m.foldl (fun c sv => pyRemoveFirst c sv) l := by
  induction m generalizing l with
  | nil => rfl
  | cons x xs ih =>
    simp only [List.foldl_cons]
    rw [pyRemoveFirst_of_ne a l x (h x (by simp))]
    exact ih _ (fun y hy => h y (by simp [hy]))

/-- With pairwise distinct uuids, removing the matching elements one by one
is an ordinary filter. -/
theorem sieveRemoveFilter (l : List Subvolume) (p : Subvolume → Bool)
    (h : (l.map (fun sv => sv.uuidF)).Nodup) :
    (l.filter p).foldl (fun c sv => pyRemoveFirst c sv) l =
      l.filter (fun sv => !p sv) := by
  induction l with
  | nil => rfl
  | cons a l ih =>
    have hna : a.uuidF ∉ l.map (fun sv => sv.uuidF) := (List.nodup_cons.mp h).1
    have hnd : (l.map (fun sv => sv.uuidF)).Nodup := (List.nodup_cons.mp h).2
    by_cases hp : p a
    · have h1 : (a :: l).filter p = a :: l.filter p := by
        simp [List.filter_cons, hp]
      have h2 : pyRemoveFirst (a :: l) a = l := by
        simp [pyRemoveFirst, pyEqSubvol]
      have h3 : (a :: l).filter (fun sv => !p sv) = l.filter (fun sv => !p sv) := by
        simp [List.filter_cons, hp]
      rw [h1, h3]
      simp only [List.foldl_cons, h2]
      exact ih hnd
    · have h1 : (a :: l).filter p = l.filter p := by
        simp [List.filter_cons, hp]
      have h3 : (a :: l).filter (fun sv => !p sv) =
          a :: l.filter (fun sv => !p sv) := by
        simp [List.filter_cons, hp]
      have hne : ∀ x ∈ l.filter p, x.uuidF ≠ a.uuidF := by
        intro x hx heq
        exact hna (heq ▸ List.mem_map_of_mem _ (List.mem_of_mem_filter hx))
      rw [h1, h3, foldlRemove_of_ne a l (l.filter p) hne, ih hnd]

/-- Claim C6, amended: on a subvolume list with pairwise distinct uuids
(`uuid` is the equality key `list.remove` uses), the sieve returns exactly
the elements on which no selected sieve fires, preserving their relative
order; the routine is pure, the input list itself is not consumed. -/
theorem claim_C6_sieve_amended (subvolumes : List Subvolume)
    (remove_funcs : List (Subvolume → Bool))
    (h : (subvolumes.map (fun sv => sv.uuidF)).Nodup) :
    SubvolumeSieve.sieve subvolumes remove_funcs =
      subvolumes.filter (fun sv => !(remove_funcs.any (fun f => f sv))) := by
  unfold SubvolumeSieve.sieve
  exact sieveRemoveFilter subvolumes
    (fun sv => remove_funcs.any (fun f => f sv)) h

/-- Counterexample to C6 as stated: with two subvolumes sharing a uuid, the
sieve keeps `exSieveDrop` although the selected sieve fires on it (the
`list.remove` call matches the other, uuid-equal element), so the result is
not the set of elements on which no sieve fires. -/
theorem claim_C6_counterexample :
    SubvolumeSieve.sieve [exSieveKeep, exSieveDrop] [fun sv => sv.deleted] =
      [exSieveDrop] ∧ exSieveDrop.deleted = true := by decide

/-- Witness for the amended C6 at a concrete distinct-uuid list. -/
theorem claim_C6_witness :
    SubvolumeSieve.sieve [exSieveA, exSieveB] [fun sv => sv.deleted] =
      [exSieveA] := by
  rw [claim_C6_sieve_amended [exSieveA, exSieveB] [fun sv => sv.deleted]
    (by decide)]
  decide

/-! ## C5: the deleted-ancestor synthesizer computes P minus U -/

/-- Truthiness plus the `or ""` collapse of an optional string pins down
the underlying value. -/
theorem truthyOrEmpty_iff (o : Option String) (p : String) :
    (pyTruthyStr o = true ∧ orEmpty o = p) ↔ (o = some p ∧ p ≠ "") := by
  cases o with
  | none => simp [pyTruthyStr, orEmpty]
  | some x =>
    simp only [pyTruthyStr, orEmpty, decide_eq_true_eq, Option.some.injEq]
    constructor
    · rintro ⟨h1, rfl⟩
      exact ⟨rfl, h1⟩
    · rintro ⟨rfl, h2⟩
      exact ⟨h2, rfl⟩

/-- Claim C5, amended: the synthesizer returns exactly one placeholder per
referenced-but-absent lineage parent identifier; each placeholder carries
the missing identifier as its uuid, its name and (per
`BtrfsDict.from_deleted`) also its subvolume id, while the parent identity
fields stay absent. -/
theorem claim_C5_synthesizer_amended (subvols : List Subvolume) :
    (∀ d ∈ Btrfs.get_deleted_subvols subvols,
      ∃ p : String, d = Subvolume.from_deleted p) ∧
    (∀ p : String,
      Subvolume.from_deleted p ∈ Btrfs.get_deleted_subvols subvols ↔
        (specLineageParentRef p subvols ∧ ¬ specUuidPresent p subvols)) ∧
    ((Btrfs.get_deleted_subvols subvols).map (fun d => d.uuidF)).Nodup ∧
    (∀ p : String,
      (Subvolume.from_deleted p).uuidF = some p ∧
      (Subvolume.from_deleted p).nameF = some p ∧
      (Subvolume.from_deleted p).subvolIdF = some p ∧
      (Subvolume.from_deleted p).parentUuidF = none ∧
      (Subvolume.from_deleted p).receivedUuidF = none ∧
      (Subvolume.from_deleted p).parentIdF = none ∧
      (Subvolume.from_deleted p).deleted = true) := by
  refine ⟨?_, ?_, ?_, fun p => ⟨rfl, rfl, rfl, rfl, rfl, rfl, rfl⟩⟩
  · intro d hd
    simp only [Btrfs.get_deleted_subvols] at hd
    obtain ⟨p, _, rfl⟩ := List.mem_map.mp hd
    exact ⟨p, rfl⟩
  · intro p
    simp only [Btrfs.get_deleted_subvols]
    constructor
    · intro hmem
      obtain ⟨q, hq, heq⟩ := List.mem_map.mp hmem
      have hpq : q = p := by
        have h2 := congrArg (fun d => d.uuidF) heq
        simpa [Subvolume.from_deleted] using h2
      subst hpq
      rw [List.mem_filter] at hq
      obtain ⟨hq1, hq2⟩ := hq
      rw [List.mem_dedup] at hq1
      obtain ⟨sv, hsv, hsvp⟩ := List.mem_map.mp hq1
      rw [List.mem_filter] at hsv
      refine ⟨⟨sv, hsv.1, (truthyOrEmpty_iff _ _).mp ⟨hsv.2, hsvp⟩⟩, ?_⟩
      rintro ⟨sv2, hs2, hid⟩
      simp only [decide_eq_true_eq] at hq2
      exact hq2 (List.mem_dedup.mpr (List.mem_map.mpr ⟨sv2, hs2, hid⟩))
    · rintro ⟨⟨sv, hsv, hp⟩, hnp⟩
      refine List.mem_map.mpr ⟨p, ?_, rfl⟩
      rw [List.mem_filter]
      have hto := (truthyOrEmpty_iff (sv.parent "snap") p).mpr hp
      refine ⟨?_, ?_⟩
      · rw [List.mem_dedup]
        exact List.mem_map.mpr ⟨sv, List.mem_filter.mpr ⟨hsv, hto.1⟩, hto.2⟩
      · simp only [decide_eq_true_eq]
        intro hcontra
        rw [List.mem_dedup] at hcontra
        obtain ⟨sv2, h2, hid⟩ := List.mem_map.mp hcontra
        exact hnp ⟨sv2, h2, hid⟩
  · simp only [Btrfs.get_deleted_subvols]
    rw [List.map_map]
    have hmap : ((fun d : Subvolume => d.uuidF) ∘ Subvolume.from_deleted) =
        fun p => some p := rfl
    rw [hmap]
    exact ((List.nodup_dedup _).filter _).map (fun _ _ h => Option.some.inj h)

/-- Counterexample to C5 as stated: the placeholder synthesized for the
missing parent `X` carries a non-absent subvolume id (equal to the uuid
string), so not every identity field besides the uuid is absent. -/
theorem claim_C5_counterexample :
    Btrfs.get_deleted_subvols [exSnapMissingParent] =
      [Subvolume.from_deleted "X"] ∧
    (Subvolume.from_deleted "X").subvolIdF = some "X" := by decide

/-- Witness for the amended C5: the placeholder for the missing parent `Y`
is synthesized for a concrete input. -/
theorem claim_C5_witness :
    Subvolume.from_deleted "Y" ∈ Btrfs.get_deleted_subvols [exSnapMissingParentW] :=
  ((claim_C5_synthesizer_amended [exSnapMissingParentW]).2.1 "Y").mpr
    (by refine ⟨⟨exSnapMissingParentW, by decide, by decide, by decide⟩, ?_⟩
        rintro ⟨sv, hsv, hid⟩
        simp only [List.mem_singleton] at hsv
        subst hsv
        exact absurd hid (by decide))

/-! ## Forest-builder groundwork -/

/-- Python `==` on subvolumes is reflexive. -/
theorem pyEqSubvol_refl (s : Subvolume) : pyEqSubvol s s = true := by
  simp [pyEqSubvol]

/-- `list.remove` on the list head removes exactly the head. -/
theorem pyRemoveFirst_cons_self (s : Subvolume) (l : List Subvolume) :
    pyRemoveFirst (s :: l) s = l := by
  simp [pyRemoveFirst, pyEqSubvol_refl]

/-- `list.remove` yields a sublist. -/
theorem pyRemoveFirst_sublist (l : List Subvolume) (x : Subvolume) :
    (pyRemoveFirst l x).Sublist l := by
  induction l with
  | nil => exact List.Sublist.refl _
  | cons y ys ih =>
    by_cases hb : pyEqSubvol y x = true
    · simp only [pyRemoveFirst, hb, if_true]
      exact List.sublist_cons_self y ys
    · simp only [pyRemoveFirst, hb, if_false]
      exact ih.cons₂ y

/-- `list.remove` of a present element shortens the list by one. -/
theorem pyRemoveFirst_length (l : List Subvolume) (x : Subvolume)
    (h : ∃ y ∈ l, pyEqSubvol y x = true) :
    (pyRemoveFirst l x).length + 1 = l.length := by
  induction l with
  | nil => simp at h
  | cons y ys ih =>
    cases hb : pyEqSubvol y x with
    | true => simp [pyRemoveFirst, hb]
    | false =>
      obtain ⟨z, hz, hzx⟩ := h
      rcases List.mem_cons.mp hz with rfl | hz2
      · rw [hb] at hzx
        cases hzx
      · simp only [pyRemoveFirst, hb, Bool.false_eq_true, if_false,
          List.length_cons]
        have := ih ⟨z, hz2, hzx⟩
        omega

/-- With pairwise distinct uuids, `list.remove` of a member removes exactly
that member (up to permutation). -/
theorem pyRemoveFirst_perm (l : List Subvolume) (x : Subvolume)
    (hx : x ∈ l) (h : (l.map (fun sv => sv.uuidF)).Nodup) :
    (x :: pyRemoveFirst l x).Perm l := by
  induction l with
  | nil => simp at hx
  | cons y ys ih =>
    have hna : y.uuidF ∉ ys.map (fun sv => sv.uuidF) := (List.nodup_cons.mp h).1
    have hnd : (ys.map (fun sv => sv.uuidF)).Nodup := (List.nodup_cons.mp h).2
    by_cases hb : pyEqSubvol y x = true
    · have hxy : x = y := by
        rcases List.mem_cons.mp hx with rfl | hx2
        · rfl
        · simp only [pyEqSubvol, decide_eq_true_eq] at hb
          exact absurd (hb ▸ List.mem_map_of_mem _ hx2) hna
      subst hxy
      simp [pyRemoveFirst_cons_self]
    · have hxy : x ≠ y := fun he => hb (he ▸ pyEqSubvol_refl x)
      have hx2 : x ∈ ys := (List.mem_cons.mp hx).resolve_left hxy
      simp only [pyRemoveFirst, hb, if_false]
      exact (List.Perm.swap y x _).trans ((ih hx2 hnd).cons y)

/-- Node identifier membership as list membership. -/
theorem containsId_iff (t : BTree) (i : String) :
    t.containsId i = true ↔ i ∈ t.map (fun n => n.ident) := by
  simp only [BTree.containsId, List.any_eq_true, decide_eq_true_eq,
    List.mem_map]

/-- Identifier membership in the whole forest. -/
theorem mem_forestIds (i : String) (trees : List BTree) :
    i ∈ forestIds trees ↔ ∃ t ∈ trees, t.containsId i = true := by
  simp [forestIds, List.mem_flatMap, containsId_iff]

/-- A failed forest search means no tree contains the identifier. -/
theorem subvol_in_forest_none (i : String) (trees : List BTree)
    (h : subvol_in_forest i trees = none) :
    ∀ t ∈ trees, t.containsId i = false := by
  induction trees with
  | nil => simp
  | cons t ts ih =>
    cases hc : t.containsId i with
    | true => simp [subvol_in_forest, hc] at h
    | false =>
      intro t' ht'
      rcases List.mem_cons.mp ht' with rfl | ht2
      · exact hc
      · simp only [subvol_in_forest, hc, Bool.false_eq_true, if_false] at h
        rcases hin : subvol_in_forest i ts with _ | k
        · exact ih hin t' ht2
        · rw [hin] at h
          cases h

/-- A successful forest search decomposes the forest around the found
tree. -/
theorem subvol_in_forest_some (i : String) (trees : List BTree) (ti : Nat)
    (h : subvol_in_forest i trees = some ti) :
    ∃ pre t post, trees = pre ++ t :: post ∧ pre.length = ti ∧
      t.containsId i = true := by
  induction trees generalizing ti with
  | nil => simp [subvol_in_forest] at h
  | cons t ts ih =>
    cases hc : t.containsId i with
    | true =>
      simp only [subvol_in_forest, hc, if_true, Option.some.injEq] at h
      exact ⟨[], t, ts, rfl, h, hc⟩
    | false =>
      simp only [subvol_in_forest, hc, Bool.false_eq_true, if_false,
        Option.map_eq_some'] at h
      obtain ⟨k, hk, hki⟩ := h
      obtain ⟨pre, t', post, hdec, hlen, hcont⟩ := ih k hk
      exact ⟨t :: pre, t', post, by simp [hdec], by simp [hlen, hki], hcont⟩

/-- A successful pool search returns a member with the searched id. -/
theorem subvol_in_list_some (i kind : String) (l : List Subvolume)
    (sv : Subvolume) (h : subvol_in_list i kind l = some sv) :
    sv ∈ l ∧ sv.id kind = some i := by
  induction l with
  | nil => simp [subvol_in_list] at h
  | cons y ys ih =>
    by_cases hy : y.id kind = some i
    · rw [subvol_in_list, if_pos hy] at h
      obtain rfl := Option.some.inj h
      exact ⟨List.mem_cons_self y ys, hy⟩
    · rw [subvol_in_list, if_neg hy] at h
      obtain ⟨hm, hv⟩ := ih h
      exact ⟨List.mem_cons_of_mem _ hm, hv⟩

/-- A failed pool search means no pooled subvolume has the searched id. -/
theorem subvol_in_list_none (i kind : String) (l : List Subvolume)
    (h : subvol_in_list i kind l = none) :
    ∀ sv ∈ l, sv.id kind ≠ some i := by
  induction l with
  | nil => simp
  | cons y ys ih =>
    by_cases hy : y.id kind = some i
    · rw [subvol_in_list, if_pos hy] at h
      cases h
    · intro sv hsv
      rcases List.mem_cons.mp hsv with rfl | h2
      · exact hy
      · rw [subvol_in_list, if_neg hy] at h
        exact ih h sv h2

/-- `create_node` never reports fuel exhaustion. -/
theorem treeCreateNode_err (t : BTree) (tag ident : String) (pid : Option String)
    (sv : Subvolume) (e : BErr)
    (h : treeCreateNode t tag ident pid sv = .error e) : e ≠ .fuelOut := by
  unfold treeCreateNode at h
  split at h
  · obtain rfl := (Except.error.injEq _ _).mp h
    simp
  · split at h
    · split at h
      · simp at h
      · obtain rfl := (Except.error.injEq _ _).mp h
        simp
    · simp at h

/-! ## C2: the builder terminates -/

/-- The attach step never exhausts its stack fuel when the fuel is at least
the pool size, and on success the pool it returns is a sublist of the pool
it removed the attached subvolume from. -/
theorem get_tree_fuel (fuel : Nat) :
    ∀ (subvol : Subvolume) (subvolumes : List Subvolume) (trees : List BTree)
      (kind : String),
    (∃ y ∈ subvolumes, pyEqSubvol y subvol = true) →
    subvolumes.length ≤ fuel →
    (∀ e, get_tree fuel subvol subvolumes trees kind = .error e →
      e ≠ .fuelOut) ∧
    (∀ ti pool' trees',
      get_tree fuel subvol subvolumes trees kind = .ok (ti, pool', trees') →
      pool'.Sublist (pyRemoveFirst subvolumes subvol)) := by
  induction fuel with
  | zero =>
    intro subvol subvolumes trees kind hmem hlen
    obtain ⟨y, hy, _⟩ := hmem
    have : 0 < subvolumes.length := List.length_pos_of_mem hy
    omega
  | succ fuel ih =>
    intro subvol subvolumes trees kind hmem hlen
    rcases hf : subvol_in_forest (orEmpty (subvol.parent kind)) trees with _ | ti
    · rcases hp : subvol_in_list (orEmpty (subvol.parent kind)) kind
          (pyRemoveFirst subvolumes subvol) with _ | par
      · -- broken link: new root
        simp only [get_tree, hf, hp]
        refine ⟨fun e he => by simp at he, fun ti pool' trees' h => ?_⟩
        simp only [Except.ok.injEq, Prod.mk.injEq] at h
        obtain ⟨-, rfl, -⟩ := h
        exact List.Sublist.refl _
      · -- found in pool, recurse
        have hparm := subvol_in_list_some _ _ _ _ hp
        have hmem2 : ∃ y ∈ pyRemoveFirst subvolumes subvol,
            pyEqSubvol y par = true :=
          ⟨par, hparm.1, pyEqSubvol_refl par⟩
        have hlen2 : (pyRemoveFirst subvolumes subvol).length ≤ fuel := by
          have := pyRemoveFirst_length subvolumes subvol hmem
          omega
        obtain ⟨ihe, ihok⟩ := ih par (pyRemoveFirst subvolumes subvol) trees
          kind hmem2 hlen2
        rcases hrec : get_tree fuel par (pyRemoveFirst subvolumes subvol)
            trees kind with e0 | ⟨ti2, subs2, trees2⟩
        · simp only [get_tree, hf, hp, hrec]
          refine ⟨fun e he => ?_, fun ti pool' trees' h => by simp at h⟩
          obtain rfl := (Except.error.injEq _ _).mp he
          exact ihe e0 hrec
        · have hsub2 : subs2.Sublist (pyRemoveFirst subvolumes subvol) :=
            (ihok ti2 subs2 trees2 hrec).trans (pyRemoveFirst_sublist _ _)
          rcases hcr : treeCreateNode (trees2.getD ti2 []) subvol.pyStr
              (orEmpty (subvol.id kind)) (some (orEmpty (subvol.parent kind)))
              subvol with e1 | t'
          · simp only [get_tree, hf, hp, hrec, hcr]
            refine ⟨fun e he => ?_, fun ti pool' trees' h => by simp at h⟩
            obtain rfl := (Except.error.injEq _ _).mp he
            exact treeCreateNode_err _ _ _ _ _ _ hcr
          · simp only [get_tree, hf, hp, hrec, hcr]
            refine ⟨fun e he => by simp at he, fun ti pool' trees' h => ?_⟩
            simp only [Except.ok.injEq, Prod.mk.injEq] at h
            obtain ⟨-, rfl, -⟩ := h
            exact hsub2
    · -- found in forest
      rcases hcr : treeCreateNode (trees.getD ti []) subvol.pyStr
          (orEmpty (subvol.id kind)) (some (orEmpty (subvol.parent kind)))
          subvol with e1 | t'
      · simp only [get_tree, hf, hcr]
        refine ⟨fun e he => ?_, fun ti pool' trees' h => by simp at h⟩
        obtain rfl := (Except.error.injEq _ _).mp he
        exact treeCreateNode_err _ _ _ _ _ _ hcr
      · simp only [get_tree, hf, hcr]
        refine ⟨fun e he => by simp at he, fun ti2 pool' trees' h => ?_⟩
        simp only [Except.ok.injEq, Prod.mk.injEq] at h
        obtain ⟨-, rfl, -⟩ := h
        exact List.Sublist.refl _

/-- The construction loop never exhausts its fuel when the fuel is at least
the pool size. -/
theorem forest_loop_fuel (fuel : Nat) :
    ∀ (pool : List Subvolume) (trees : List BTree) (kind : String),
    pool.length ≤ fuel →
    ∀ e, forest_loop fuel pool trees kind = .error e → e ≠ .fuelOut := by
  induction fuel with
  | zero =>
    intro pool trees kind hlen e h
    match pool with
    | [] => simp [forest_loop] at h
  | succ fuel ih =>
    intro pool trees kind hlen e h
    match pool with
    | [] => simp [forest_loop] at h
    | subvol :: rest =>
      rcases hg : get_tree (subvol :: rest).length subvol (subvol :: rest)
          trees kind with e0 | ⟨ti, pool', trees'⟩
      · simp only [forest_loop, hg] at h
        obtain rfl := (Except.error.injEq _ _).mp h
        exact (get_tree_fuel _ subvol (subvol :: rest) trees kind
          ⟨subvol, by simp, pyEqSubvol_refl subvol⟩ (le_refl _)).1 e0 hg
      · simp only [forest_loop, hg] at h
        have hsub : pool'.Sublist rest := by
          have h2 := (get_tree_fuel _ subvol (subvol :: rest) trees kind
            ⟨subvol, by simp, pyEqSubvol_refl subvol⟩ (le_refl _)).2 ti pool'
            trees' hg
          rwa [pyRemoveFirst_cons_self] at h2
        have hlen2 : pool'.length ≤ fuel := by
          have h1 := hsub.length_le
          simp only [List.length_cons] at hlen
          omega
        exact ih pool' trees' kind hlen2 e h

/-- Claim C2: for every finite input collection the forest construction
terminates: the recursion depth of the attach step is bounded by the pool
size because the attached subvolume is removed before recursing, so the
fuel-instrumented embedding never reports fuel exhaustion. -/
theorem claim_C2_termination (subvolumes : List Subvolume) (kind : String) :
    get_forest subvolumes kind ≠ Except.error BErr.fuelOut := by
  intro h
  exact forest_loop_fuel subvolumes.length subvolumes [] kind (le_refl _)
    BErr.fuelOut h rfl

/-- Witness for C2 at a concrete input. -/
theorem claim_C2_witness :
    get_forest [exRoot5, exChild256] "subvol" ≠ Except.error BErr.fuelOut :=
  claim_C2_termination [exRoot5, exChild256] "subvol"

/-! ## List-indexing and insertion helpers for the builder proofs -/

/-- A successful optional lookup yields a member. -/
theorem mem_of_getElem_opt {α : Type} (l : List α) (n : Nat) (a : α)
    (h : l[n]? = some a) : a ∈ l := by
  have h2 : n < l.length := by
    by_contra hc
    rw [List.getElem?_eq_none (by omega)] at h
    cases h
  rw [List.getElem?_eq_getElem h2] at h
  obtain rfl := Option.some.inj h
  exact List.getElem_mem h2

/-- `getD` at the split point of a decomposition. -/
theorem getD_decomp (pre post : List BTree) (t : BTree) :
    (pre ++ t :: post).getD pre.length [] = t := by
  rw [List.getD_eq_getElem?_getD, List.getElem?_append_right (le_refl _)]
  simp

/-- `getElem?` at the split point of a decomposition. -/
theorem getElem_opt_decomp (pre post : List BTree) (t : BTree) :
    (pre ++ t :: post)[pre.length]? = some t := by
  rw [List.getElem?_append_right (le_refl _)]
  simp

/-- `getElem?` away from the split point ignores the split element. -/
theorem getElem_opt_decomp_ne (pre post : List BTree) (x y : BTree) (j : Nat)
    (h : j ≠ pre.length) :
    (pre ++ x :: post)[j]? = (pre ++ y :: post)[j]? := by
  rcases Nat.lt_or_ge j pre.length with hlt | hge
  · rw [List.getElem?_append_left hlt, List.getElem?_append_left hlt]
  · rw [List.getElem?_append_right hge, List.getElem?_append_right hge]
    have hne : j - pre.length ≠ 0 := by omega
    obtain ⟨k, hk⟩ := Nat.exists_eq_succ_of_ne_zero hne
    rw [hk]
    simp

/-- `set` at the split point of a decomposition. -/
theorem set_decomp (pre post : List BTree) (t t' : BTree) :
    (pre ++ t :: post).set pre.length t' = pre ++ t' :: post := by
  induction pre with
  | nil => rfl
  | cons a pre ih => simp [ih]

/-- Any list splits around the element at a valid index. -/
theorem decomp_of_lt (l : List BTree) (n : Nat) (h : n < l.length) :
    ∃ pre post, l = pre ++ (l.getD n []) :: post ∧ pre.length = n := by
  induction l generalizing n with
  | nil => simp at h
  | cons x xs ih =>
    match n with
    | 0 => exact ⟨[], xs, rfl, rfl⟩
    | n + 1 =>
      obtain ⟨pre, post, hdec, hlen⟩ := ih n (by simpa using h)
      refine ⟨x :: pre, post, ?_, by simp [hlen]⟩
      simpa using hdec

/-- Appending a node keeps its identifier findable. -/
theorem containsId_append_self (t : BTree) (nd : TNode) :
    (t ++ [nd]).containsId nd.ident = true := by
  simp [BTree.containsId]

/-- Appending a node preserves identifier membership. -/
theorem containsId_append_of (t : BTree) (nd : TNode) (j : String)
    (h : t.containsId j = true) : (t ++ [nd]).containsId j = true := by
  simp only [BTree.containsId, List.any_append, Bool.or_eq_true]
  exact Or.inl h

/-- Inserting a node into the tree at the split point permutes the flattened
projection by adding the new node's image in front. -/
theorem flat_insert_perm {α : Type} (f : TNode → α) (pre post : List BTree)
    (t : BTree) (nd : TNode) :
    ((pre ++ (t ++ [nd]) :: post).flatMap (fun tr => tr.map f)).Perm
      (f nd :: (pre ++ t :: post).flatMap (fun tr => tr.map f)) := by
  induction pre with
  | nil =>
    simp only [List.nil_append, List.flatMap_cons, List.map_append,
      List.map_cons, List.map_nil, List.append_assoc, List.singleton_append]
    exact List.perm_middle
  | cons a pre ih =>
    simp only [List.cons_append, List.flatMap_cons, List.append_assoc]
    exact (ih.append_left (a.map f)).trans List.perm_middle

/-- Specialization of the insertion permutation to payloads. -/
theorem forestSubvols_insert_perm (pre post : List BTree) (t : BTree)
    (nd : TNode) :
    (forestSubvols (pre ++ (t ++ [nd]) :: post)).Perm
      (nd.data :: forestSubvols (pre ++ t :: post)) :=
  flat_insert_perm (fun n => n.data) pre post t nd

/-- Specialization of the insertion permutation to identifiers. -/
theorem forestIds_insert_perm (pre post : List BTree) (t : BTree)
    (nd : TNode) :
    (forestIds (pre ++ (t ++ [nd]) :: post)).Perm
      (nd.ident :: forestIds (pre ++ t :: post)) :=
  flat_insert_perm (fun n => n.ident) pre post t nd

/-- A fully orphan-free forest is orphan-free up to any pending set. -/
theorem goodForest_goodExcept (kind : String) (E : List String) (ti : Nat)
    (trees : List BTree) (hg : GoodForest kind trees) :
    GoodExcept kind E ti trees := by
  intro j t hj n hn htr
  exact Or.inl (hg t (mem_of_getElem_opt _ _ _ hj) n hn htr)

/-- Orphan-freeness up to an empty pending set is full orphan-freeness. -/
theorem goodExcept_nil (kind : String) (ti : Nat) (trees : List BTree)
    (hg : GoodExcept kind [] ti trees) : GoodForest kind trees := by
  intro t ht n hn htr
  obtain ⟨j, hj⟩ := List.getElem?_of_mem ht
  rcases hg j t hj n hn htr with h | ⟨-, h⟩
  · exact h
  · simp at h

/-- Inserting a node named after the head of the pending set into the tree
at the split point discharges that pending name. -/
theorem goodExcept_insert (kind : String) (E : List String)
    (pre post : List BTree) (t : BTree) (nd : TNode)
    (hold : GoodExcept kind (nd.ident :: E) pre.length (pre ++ t :: post))
    (hnd : pyTruthyStr (nd.data.parent kind) = true →
      (t ++ [nd]).containsId (orEmpty (nd.data.parent kind)) = true) :
    GoodExcept kind E pre.length (pre ++ (t ++ [nd]) :: post) := by
  intro j t0 hj n hn htr
  by_cases hji : j = pre.length
  · subst hji
    rw [getElem_opt_decomp] at hj
    obtain rfl := Option.some.inj hj
    rcases List.mem_append.mp hn with hn1 | hn2
    · rcases hold pre.length t (getElem_opt_decomp pre post t) n hn1 htr with
        h | ⟨-, h⟩
      · exact Or.inl (containsId_append_of t nd _ h)
      · rcases List.mem_cons.mp h with h2 | h2
        · exact Or.inl (h2 ▸ containsId_append_self t nd)
        · exact Or.inr ⟨rfl, h2⟩
    · obtain rfl := List.mem_singleton.mp hn2
      exact Or.inl (hnd htr)
  · rw [getElem_opt_decomp_ne pre post _ t j hji] at hj
    rcases hold j t0 hj n hn htr with h | ⟨h2, -⟩
    · exact Or.inl h
    · exact absurd h2 hji

/-- Appending a fresh single-node tree preserves orphan-freeness when the
new node's reference, if any, is its own identifier or pending. -/
theorem goodExcept_append (kind : String) (E : List String)
    (trees : List BTree) (nd : TNode)
    (hg : GoodForest kind trees)
    (hnd : pyTruthyStr (nd.data.parent kind) = true →
      orEmpty (nd.data.parent kind) = nd.ident ∨
        orEmpty (nd.data.parent kind) ∈ E) :
    GoodExcept kind E trees.length (trees ++ [[nd]]) := by
  intro j t0 hj n hn htr
  by_cases hji : j = trees.length
  · subst hji
    have hj2 : (trees ++ [nd] :: [])[trees.length]? = some [nd] :=
      getElem_opt_decomp trees [] [nd]
    rw [hj2] at hj
    obtain rfl := Option.some.inj hj
    obtain rfl := List.mem_singleton.mp hn
    rcases hnd htr with h | h
    · refine Or.inl ?_
      rw [h]
      simp [BTree.containsId]
    · exact Or.inr ⟨rfl, h⟩
  · have hlt : j < trees.length := by
      have : j < (trees ++ [[nd]]).length := by
        by_contra hc
        rw [List.getElem?_eq_none (by omega)] at hj
        cases hj
      simp only [List.length_append, List.length_singleton] at this
      omega
    rw [List.getElem?_append_left hlt] at hj
    exact Or.inl (hg t0 (mem_of_getElem_opt _ _ _ hj) n hn htr)

/-- A falsy optional string collapses to the empty string. -/
theorem orEmpty_of_falsy (o : Option String)
    (h : pyTruthyStr o = false) : orEmpty o = "" := by
  cases o with
  | none => rfl
  | some s =>
    simp only [pyTruthyStr, decide_eq_false_iff_not, not_not] at h
    simp [orEmpty, h]

/-- A non-empty effective identifier comes from a genuine id value. -/
theorem id_of_effId (kind : String) (sv : Subvolume) (p : String)
    (he : effId kind sv = p) (hp : p ≠ "") : sv.id kind = some p := by
  rcases ho : sv.id kind with _ | x
  · rw [effId, ho] at he
    exact absurd he.symm hp
  · rw [effId, ho] at he
    simp only [orEmpty] at he
    rw [he]

/-- Converse direction of the forest search: nothing to find means the
search fails. -/
theorem subvol_in_forest_none_of (i : String) (trees : List BTree)
    (h : ∀ t ∈ trees, t.containsId i = false) :
    subvol_in_forest i trees = none := by
  induction trees with
  | nil => rfl
  | cons t ts ih =>
    have h0 : t.containsId i = false := h t (List.mem_cons_self t ts)
    simp only [subvol_in_forest, h0, Bool.false_eq_true, if_false]
    rw [ih (fun t' ht' => h t' (List.mem_cons_of_mem _ ht'))]
    rfl

/-- Converse direction of the pool search: no pooled subvolume carries the
id, so the search fails. -/
theorem subvol_in_list_none_of (i kind : String) (l : List Subvolume)
    (h : ∀ sv ∈ l, sv.id kind ≠ some i) :
    subvol_in_list i kind l = none := by
  induction l with
  | nil => rfl
  | cons y ys ih =>
    rw [subvol_in_list, if_neg (h y (List.mem_cons_self y ys))]
    exact ih (fun sv hsv => h sv (List.mem_cons_of_mem _ hsv))

/-! ## The attach step under distinct identifiers -/

/-- Main attach-step lemma: with enough fuel, pairwise distinct uuids in
the pool, and node identifiers (pooled and already placed) pairwise
distinct, `get_tree` succeeds and satisfies `AttachOut`. -/
theorem get_tree_attach (fuel : Nat) :
    ∀ (subvol : Subvolume) (subvolumes : List Subvolume) (trees : List BTree)
      (kind : String),
    subvol ∈ subvolumes →
    subvolumes.length ≤ fuel →
    (subvolumes.map (fun sv => sv.uuidF)).Nodup →
    (subvolumes.map (effId kind) ++ forestIds trees).Nodup →
    ∃ ti pool' trees',
      get_tree fuel subvol subvolumes trees kind = .ok (ti, pool', trees') ∧
      AttachOut kind subvol subvolumes trees ti pool' trees' := by
  induction fuel with
  | zero =>
    intro subvol subvolumes trees kind hmem hlen huuid hids
    have : 0 < subvolumes.length := List.length_pos_of_mem hmem
    omega
  | succ fuel ih =>
    intro subvol subvolumes trees kind hmem hlen huuid hids
    have hsubs1perm :
        (subvol :: pyRemoveFirst subvolumes subvol).Perm subvolumes :=
      pyRemoveFirst_perm subvolumes subvol hmem huuid
    have hids_perm :
        (effId kind subvol ::
          (pyRemoveFirst subvolumes subvol).map (effId kind)).Perm
          (subvolumes.map (effId kind)) := by
      have h2 := hsubs1perm.map (effId kind)
      simpa using h2
    have hids_nodup_all : (subvolumes.map (effId kind)).Nodup :=
      (List.nodup_append.mp hids).1
    have hdisj : (subvolumes.map (effId kind)).Disjoint (forestIds trees) :=
      List.disjoint_of_nodup_append hids
    have hsid_mem : effId kind subvol ∈ subvolumes.map (effId kind) :=
      List.mem_map_of_mem _ hmem
    have hsid_not_forest : effId kind subvol ∉ forestIds trees :=
      fun hin => hdisj hsid_mem hin
    have hsid_not_subs1 :
        effId kind subvol ∉
          (pyRemoveFirst subvolumes subvol).map (effId kind) :=
      (List.nodup_cons.mp (hids_perm.nodup_iff.mpr hids_nodup_all)).1
    have hsubs1_sub := pyRemoveFirst_sublist subvolumes subvol
    rcases hf : subvol_in_forest (orEmpty (subvol.parent kind)) trees
      with _ | ti
    · rcases hp : subvol_in_list (orEmpty (subvol.parent kind)) kind
          (pyRemoveFirst subvolumes subvol) with _ | par
      · -- branch 3: new single-node tree
        refine ⟨trees.length, pyRemoveFirst subvolumes subvol,
          trees ++ [[⟨subvol.pyStr, orEmpty (subvol.id kind), none, subvol⟩]],
          by simp only [get_tree, hf, hp], ?_⟩
        set nd : TNode :=
          ⟨subvol.pyStr, orEmpty (subvol.id kind), none, subvol⟩ with hnd
        have hfs : forestSubvols (trees ++ [[nd]]) =
            forestSubvols trees ++ [subvol] := by
          simp [forestSubvols]
        have hfi : forestIds (trees ++ [[nd]]) =
            forestIds trees ++ [effId kind subvol] := by
          simp [forestIds, effId]
        refine ⟨List.Sublist.refl _, ?_, ?_, by simp, ?_, by simp, ?_⟩
        · rw [hfs, List.append_assoc]
          exact (hsubs1perm).append_left (forestSubvols trees)
        · rw [hfi, List.append_assoc]
          exact (hids_perm).append_left (forestIds trees)
        · have hgd := getD_decomp trees [] [nd]
          rw [hgd]
          exact containsId_append_self [] nd
        · intro E hg hc
          refine goodExcept_append kind E trees nd hg ?_
          intro htr
          have hpv := hc subvol hmem htr
          have hpv_ne : orEmpty (subvol.parent kind) ≠ "" := by
            rcases ho : subvol.parent kind with _ | x
            · rw [ho] at htr
              cases htr
            · rw [ho] at htr
              simp only [pyTruthyStr, decide_eq_true_eq] at htr
              simpa [orEmpty, ho] using htr
          rcases hpv with hin | hin | hin
          · exfalso
            rw [mem_forestIds] at hin
            obtain ⟨t0, ht0, hcid⟩ := hin
            have := subvol_in_forest_none _ _ hf t0 ht0
            rw [hcid] at this
            cases this
          · rcases List.mem_map.mp hin with ⟨sv2, hsv2, hid2⟩
            rcases (hids_perm.nodup_iff.mpr hids_nodup_all) with -
            have hsv2cases :
                sv2 = subvol ∨ sv2 ∈ pyRemoveFirst subvolumes subvol := by
              have hiff := hsubs1perm.mem_iff.mpr hsv2
              exact List.mem_cons.mp hiff
            rcases hsv2cases with rfl | hsv2r
            · exact Or.inl hid2.symm
            · exfalso
              exact subvol_in_list_none _ _ _ hp sv2 hsv2r
                (id_of_effId kind sv2 _ hid2 hpv_ne)
          · exact Or.inr hin
      · -- branch 2: parent in pool, recurse
        obtain ⟨hparm, hpar_id⟩ := subvol_in_list_some _ _ _ _ hp
        have hlen2 : (pyRemoveFirst subvolumes subvol).length ≤ fuel := by
          have := pyRemoveFirst_length subvolumes subvol
            ⟨subvol, hmem, pyEqSubvol_refl subvol⟩
          omega
        have huuid2 :
            ((pyRemoveFirst subvolumes subvol).map
              (fun sv => sv.uuidF)).Nodup :=
          huuid.sublist (hsubs1_sub.map _)
        have hids2 :
            ((pyRemoveFirst subvolumes subvol).map (effId kind) ++
              forestIds trees).Nodup :=
          hids.sublist ((hsubs1_sub.map _).append_right _)
        obtain ⟨ti2, subs2, trees2, hrec, out⟩ :=
          ih par (pyRemoveFirst subvolumes subvol) trees kind hparm hlen2
            huuid2 hids2
        have hpar_eff : effId kind par = orEmpty (subvol.parent kind) := by
          rw [effId, hpar_id]
          rfl
        obtain ⟨pre2, post2, hdec2, hplen2⟩ :=
          decomp_of_lt trees2 ti2 out.ti_lt
        set tree2 : BTree := trees2.getD ti2 [] with htree2
        have hsid_not_f2 :
            effId kind subvol ∉ forestIds trees2 := by
          intro hin
          have hin2 : effId kind subvol ∈
              forestIds trees2 ++ subs2.map (effId kind) :=
            List.mem_append.mpr (Or.inl hin)
          have hin3 := out.conserv_ids.mem_iff.mp hin2
          rcases List.mem_append.mp hin3 with h4 | h4
          · exact hsid_not_forest h4
          · exact hsid_not_subs1 h4
        have hdup2 : tree2.containsId (orEmpty (subvol.id kind)) = false := by
          cases hcs : tree2.containsId (orEmpty (subvol.id kind)) with
          | false => rfl
          | true =>
            exfalso
            apply hsid_not_f2
            rw [mem_forestIds]
            refine ⟨tree2, ?_, hcs⟩
            rw [hdec2]
            exact List.mem_append.mpr (Or.inr (List.mem_cons_self _ _))
        have hcont2 : tree2.containsId (orEmpty (subvol.parent kind)) = true := by
          have := out.ti_contains
          rw [hpar_eff] at this
          exact this
        have hcr : treeCreateNode tree2 subvol.pyStr
            (orEmpty (subvol.id kind)) (some (orEmpty (subvol.parent kind)))
            subvol = .ok (tree2 ++
              [⟨subvol.pyStr, orEmpty (subvol.id kind),
                some (orEmpty (subvol.parent kind)), subvol⟩]) := by
          simp [treeCreateNode, hdup2, hcont2]
        set nd : TNode := ⟨subvol.pyStr, orEmpty (subvol.id kind),
          some (orEmpty (subvol.parent kind)), subvol⟩ with hnd
        refine ⟨ti2, subs2, trees2.set ti2 (tree2 ++ [nd]),
          by simp only [get_tree, hf, hp, hrec, ← htree2, hcr], ?_⟩
        have hset : trees2.set ti2 (tree2 ++ [nd]) =
            pre2 ++ (tree2 ++ [nd]) :: post2 := by
          conv_lhs => rw [hdec2, ← hplen2]
          exact set_decomp pre2 post2 tree2 (tree2 ++ [nd])
        have hins_data := forestSubvols_insert_perm pre2 post2 tree2 nd
        have hins_ids := forestIds_insert_perm pre2 post2 tree2 nd
        rw [← hdec2] at hins_data hins_ids
        refine ⟨out.pool_sub.trans (pyRemoveFirst_sublist _ _), ?_, ?_, ?_,
          ?_, ?_, ?_⟩
        · -- payload conservation
          rw [hset]
          have h4 := out.conserv_data.cons subvol
          exact (hins_data.append_right subs2).trans (h4.trans
            (List.perm_middle.symm.trans
              (hsubs1perm.append_left (forestSubvols trees))))
        · -- identifier conservation
          rw [hset]
          have h4 := out.conserv_ids.cons (effId kind subvol)
          exact (hins_ids.append_right _).trans (h4.trans
            (List.perm_middle.symm.trans
              (hids_perm.append_left (forestIds trees))))
        · rw [List.length_set]
          exact out.ti_lt
        · rw [hset, ← hplen2, getD_decomp]
          exact containsId_append_self tree2 nd
        · rw [List.length_set]
          exact out.len_mono
        · intro E hg hc
          have hclo2 : StackClosure kind (nd.ident :: E)
              (pyRemoveFirst subvolumes subvol) trees := by
            intro sv hsv htrv
            rcases hc sv (hsubs1_sub.mem hsv) htrv with h4 | h4 | h4
            · exact Or.inl h4
            · have h5 := (hids_perm.mem_iff).mpr h4
              rcases List.mem_cons.mp h5 with h6 | h6
              · exact Or.inr (Or.inr (List.mem_cons.mpr (Or.inl h6)))
              · exact Or.inr (Or.inl h6)
            · exact Or.inr (Or.inr (List.mem_cons_of_mem _ h4))
          have hge2 := out.good (nd.ident :: E) hg hclo2
          rw [hset, ← hplen2]
          rw [hdec2, ← hplen2] at hge2
          refine goodExcept_insert kind E pre2 post2 tree2 nd hge2 ?_
          intro htrv
          exact containsId_append_of tree2 nd _ hcont2
    · -- branch 1: parent already in the forest
      obtain ⟨pre, t, post, htr, hpl, hcont⟩ := subvol_in_forest_some _ _ _ hf
      subst htr
      subst hpl
      have hdup : t.containsId (orEmpty (subvol.id kind)) = false := by
        cases hcs : t.containsId (orEmpty (subvol.id kind)) with
        | false => rfl
        | true =>
          exfalso
          apply hsid_not_forest
          rw [mem_forestIds]
          exact ⟨t, List.mem_append.mpr (Or.inr (List.mem_cons_self _ _)), hcs⟩
      have hcr : treeCreateNode t subvol.pyStr
          (orEmpty (subvol.id kind)) (some (orEmpty (subvol.parent kind)))
          subvol = .ok (t ++
            [⟨subvol.pyStr, orEmpty (subvol.id kind),
              some (orEmpty (subvol.parent kind)), subvol⟩]) := by
        simp [treeCreateNode, hdup, hcont]
      set nd : TNode := ⟨subvol.pyStr, orEmpty (subvol.id kind),
        some (orEmpty (subvol.parent kind)), subvol⟩ with hnd
      refine ⟨pre.length, pyRemoveFirst subvolumes subvol,
        pre ++ (t ++ [nd]) :: post,
        by simp only [get_tree, hf, getD_decomp, hcr, set_decomp], ?_⟩
      have hins_data := flat_insert_perm (fun n => n.data) pre post t nd
      have hins_ids := flat_insert_perm (fun n => n.ident) pre post t nd
      refine ⟨List.Sublist.refl _, ?_, ?_, by simp, ?_, by simp, ?_⟩
      · refine (hins_data.append_right _).trans ?_
        refine List.perm_middle.symm.trans ?_
        exact hsubs1perm.append_left (forestSubvols (pre ++ t :: post))
      · refine (hins_ids.append_right _).trans ?_
        refine List.perm_middle.symm.trans ?_
        exact hids_perm.append_left (forestIds (pre ++ t :: post))
      · rw [getD_decomp]
        exact containsId_append_self t nd
      · intro E hg hc
        refine goodExcept_insert kind E pre post t nd
          (goodForest_goodExcept kind (nd.ident :: E) pre.length _ hg) ?_
        intro htrv
        exact containsId_append_of t nd _ hcont

/-- Loop-level lemma: under the distinctness hypotheses the whole loop
succeeds, moving every pooled subvolume (payload and identifier) into the
forest, and preserves orphan-freeness under closure. -/
theorem forest_loop_attach (fuel : Nat) :
    ∀ (pool : List Subvolume) (trees : List BTree) (kind : String),
    pool.length ≤ fuel →
    (pool.map (fun sv => sv.uuidF)).Nodup →
    (pool.map (effId kind) ++ forestIds trees).Nodup →
    ∃ F, forest_loop fuel pool trees kind = .ok F ∧
      (forestSubvols F).Perm (forestSubvols trees ++ pool) ∧
      (forestIds F).Perm (forestIds trees ++ pool.map (effId kind)) ∧
      (GoodForest kind trees → StackClosure kind [] pool trees →
        GoodForest kind F) := by
  induction fuel with
  | zero =>
    intro pool trees kind hlen huuid hids
    match pool with
    | [] => exact ⟨trees, rfl, by simp, by simp, fun hg _ => hg⟩
    | s :: rest => simp at hlen
  | succ fuel ih =>
    intro pool trees kind hlen huuid hids
    match pool with
    | [] => exact ⟨trees, rfl, by simp, by simp, fun hg _ => hg⟩
    | subvol :: rest =>
      obtain ⟨ti, pool', trees', hg1, out⟩ :=
        get_tree_attach (subvol :: rest).length subvol (subvol :: rest) trees
          kind (by simp) (le_refl _) huuid hids
      have hrest : pool'.Sublist rest := by
        have h2 := out.pool_sub
        rwa [pyRemoveFirst_cons_self] at h2
      have hlen2 : pool'.length ≤ fuel := by
        have h2 := hrest.length_le
        simp only [List.length_cons] at hlen
        omega
      have hpool'_sub : pool'.Sublist (subvol :: rest) :=
        hrest.trans (List.sublist_cons_self _ _)
      have huuid2 := huuid.sublist (hpool'_sub.map _)
      have hids2 : (pool'.map (effId kind) ++ forestIds trees').Nodup := by
        have h3 : (forestIds trees ++
            (subvol :: rest).map (effId kind)).Nodup :=
          (List.perm_append_comm).nodup_iff.mp hids
        have h4 : (forestIds trees' ++ pool'.map (effId kind)).Nodup :=
          (out.conserv_ids.nodup_iff).mpr h3
        exact (List.perm_append_comm).nodup_iff.mp h4
      obtain ⟨F, hloop, hfs, hfi, hgood⟩ := ih pool' trees' kind hlen2
        huuid2 hids2
      refine ⟨F, ?_, ?_, ?_, ?_⟩
      · simp only [forest_loop, hg1]
        exact hloop
      · exact hfs.trans out.conserv_data
      · exact hfi.trans out.conserv_ids
      · intro hgf hclo
        refine hgood (goodExcept_nil kind ti trees'
          (out.good [] hgf hclo)) ?_
        intro sv hsv htr
        have h5 := hclo sv (hpool'_sub.mem hsv) htr
        have h6 : orEmpty (sv.parent kind) ∈
            forestIds trees ++ (subvol :: rest).map (effId kind) := by
          rcases h5 with h | h | h
          · exact List.mem_append.mpr (Or.inl h)
          · exact List.mem_append.mpr (Or.inr h)
          · exact absurd h (List.not_mem_nil _)
        have h7 := (out.conserv_ids.mem_iff).mpr h6
        rcases List.mem_append.mp h7 with h | h
        · exact Or.inl h
        · exact Or.inr (Or.inl h)

/-! ## C1: forest coverage -/

/-- Claim C1, amended: when the subvolumes have pairwise distinct uuids
(the key `list.remove` matches on) and pairwise distinct identifiers under
the chosen scheme, `get_forest` succeeds and its forest carries every input
subvolume as the payload of exactly one node: the payload multiset is a
permutation of the input, so the node count equals the input size. -/
theorem claim_C1_forest_coverage_amended (subvolumes : List Subvolume)
    (kind : String)
    (huuid : (subvolumes.map (fun sv => sv.uuidF)).Nodup)
    (hids : (subvolumes.map (effId kind)).Nodup) :
    ∃ F, get_forest subvolumes kind = .ok F ∧
      (forestSubvols F).Perm subvolumes ∧
      (forestSubvols F).length = subvolumes.length := by
  have hids2 : (subvolumes.map (effId kind) ++ forestIds []).Nodup := by
    simpa [forestIds] using hids
  obtain ⟨F, hloop, hfs, -, -⟩ := forest_loop_attach subvolumes.length
    subvolumes [] kind (le_refl _) huuid hids2
  have hfs2 : (forestSubvols F).Perm subvolumes := by
    simpa [forestSubvols] using hfs
  exact ⟨F, hloop, hfs2, hfs2.length_eq⟩

/-- Counterexample to C1 as stated: with two subvolumes sharing the uuid
`u`, the `list.remove` call inside `get_tree` removes `exDupX` while
attaching `exDupP`, so `exDupX` never becomes a node payload and `exDupP`
appears twice. -/
theorem claim_C1_counterexample :
    get_forest [exDupC, exDupX, exDupP] "subvol" =
      Except.ok [[⟨"p", "p", none, exDupP⟩, ⟨"c", "1", some "p", exDupC⟩],
        [⟨"p", "p", none, exDupP⟩]] ∧
    exDupX ∉ forestSubvols
      [[⟨"p", "p", none, exDupP⟩, ⟨"c", "1", some "p", exDupC⟩],
        [⟨"p", "p", none, exDupP⟩]] := by decide

/-- Witness for the amended C1 at the spec's concrete layout scenario. -/
theorem claim_C1_witness :
    ∃ F, get_forest [exRoot5, exChild256, exChild257] "subvol" = .ok F ∧
      (forestSubvols F).Perm [exRoot5, exChild256, exChild257] ∧
      (forestSubvols F).length =
        ([exRoot5, exChild256, exChild257] : List Subvolume).length :=
  claim_C1_forest_coverage_amended [exRoot5, exChild256, exChild257]
    "subvol" (by decide) (by decide)

/-! ## C4: the root rule -/

/-- Claim C4, amended: attaching a subvolume whose parent identifier is
absent (falsy) creates a new single-node tree appended to the forest —
provided no existing node carries the empty-string identifier that encodes
absence and no pooled subvolume's id is the empty string (otherwise the
code attaches the parentless subvolume as a child). -/
theorem claim_C4_root_rule_amended (fuel : Nat) (subvol : Subvolume)
    (subvolumes : List Subvolume) (trees : List BTree) (kind : String)
    (habsent : pyTruthyStr (subvol.parent kind) = false)
    (hforest : ∀ t ∈ trees, t.containsId "" = false)
    (hpool : ∀ sv ∈ subvolumes, sv.id kind ≠ some "") :
    get_tree (fuel + 1) subvol subvolumes trees kind =
      Except.ok (trees.length, pyRemoveFirst subvolumes subvol,
        trees ++ [[⟨subvol.pyStr, orEmpty (subvol.id kind), none, subvol⟩]]) := by
  have hpid : orEmpty (subvol.parent kind) = "" := orEmpty_of_falsy _ habsent
  have hnf : subvol_in_forest (orEmpty (subvol.parent kind)) trees = none := by
    rw [hpid]
    exact subvol_in_forest_none_of _ _ hforest
  have hnl : subvol_in_list (orEmpty (subvol.parent kind)) kind
      (pyRemoveFirst subvolumes subvol) = none := by
    rw [hpid]
    exact subvol_in_list_none_of _ _ _
      (fun sv hsv => hpool sv ((pyRemoveFirst_sublist _ _).mem hsv))
  simp only [get_tree, hnf, hnl]

/-- Counterexample to C4 as stated: `exNoId` has no layout id, so its node
gets the empty-string identifier; the parentless `exPlainB` is then
attached as its child instead of rooting a new tree. -/
theorem claim_C4_counterexample :
    get_forest [exNoId, exPlainB] "subvol" =
      Except.ok [[⟨"anon", "", none, exNoId⟩,
        ⟨"plain", "b", some "", exPlainB⟩]] ∧
    pyTruthyStr (exPlainB.parent "subvol") = false := by decide

/-- Witness for the amended C4 at a concrete parentless subvolume. -/
theorem claim_C4_witness :
    get_tree 1 exPlainB [exPlainB] [] "subvol" =
      Except.ok (0, [], [[⟨"plain", "b", none, exPlainB⟩]]) :=
  claim_C4_root_rule_amended 0 exPlainB [exPlainB] [] "subvol" (by decide)
    (by simp) (by decide)

/-! ## C3: lineage plus synthesis leaves no orphan references -/

/-- The id under the lineage scheme is the uuid field. -/
theorem id_snap (sv : Subvolume) : sv.id "snap" = sv.uuidF := by
  simp [Subvolume.id]

/-- Every synthesized placeholder is `from_deleted p` for an absent,
non-empty referenced parent `p`. -/
theorem get_deleted_elem (subvols : List Subvolume) :
    ∀ d ∈ Btrfs.get_deleted_subvols subvols, ∃ p : String,
      d = Subvolume.from_deleted p ∧
      some p ∉ subvols.map (fun sv => sv.id "snap") ∧ p ≠ "" := by
  intro d hd
  simp only [Btrfs.get_deleted_subvols] at hd
  obtain ⟨p, hp, rfl⟩ := List.mem_map.mp hd
  rw [List.mem_filter] at hp
  obtain ⟨hp1, hp2⟩ := hp
  simp only [decide_eq_true_eq] at hp2
  refine ⟨p, rfl, fun hin => hp2 (List.mem_dedup.mpr hin), ?_⟩
  rw [List.mem_dedup] at hp1
  obtain ⟨sv, hsv, hsvp⟩ := List.mem_map.mp hp1
  rw [List.mem_filter] at hsv
  exact ((truthyOrEmpty_iff (sv.parent "snap") p).mp ⟨hsv.2, hsvp⟩).2

/-- A referenced-but-absent non-empty parent is synthesized. -/
theorem get_deleted_mem_of (subvols : List Subvolume) (p : String)
    (href : ∃ sv ∈ subvols, sv.parent "snap" = some p ∧ p ≠ "")
    (habs : some p ∉ subvols.map (fun sv => sv.id "snap")) :
    Subvolume.from_deleted p ∈ Btrfs.get_deleted_subvols subvols := by
  obtain ⟨sv, hsv, hp⟩ := href
  simp only [Btrfs.get_deleted_subvols]
  refine List.mem_map.mpr ⟨p, ?_, rfl⟩
  rw [List.mem_filter]
  have hto := (truthyOrEmpty_iff (sv.parent "snap") p).mpr hp
  refine ⟨List.mem_dedup.mpr (List.mem_map.mpr
    ⟨sv, List.mem_filter.mpr ⟨hsv, hto.1⟩, hto.2⟩), ?_⟩
  simp only [decide_eq_true_eq]
  exact fun hc => habs (List.mem_dedup.mp hc)

/-- The synthesized placeholders have pairwise distinct uuids. -/
theorem get_deleted_uuid_nodup (subvols : List Subvolume) :
    ((Btrfs.get_deleted_subvols subvols).map (fun d => d.uuidF)).Nodup := by
  simp only [Btrfs.get_deleted_subvols]
  rw [List.map_map]
  have hmap : ((fun d : Subvolume => d.uuidF) ∘ Subvolume.from_deleted) =
      fun p => some p := rfl
  rw [hmap]
  exact ((List.nodup_dedup _).filter _).map (fun _ _ h => Option.some.inj h)

/-- Mapping `orEmpty` over distinct truthy optional strings keeps them
distinct. -/
theorem nodup_orEmpty_map (ol : List (Option String))
    (h : ∀ o ∈ ol, pyTruthyStr o = true) (hn : ol.Nodup) :
    (ol.map orEmpty).Nodup := by
  refine List.Nodup.map_on ?_ hn
  intro x hx y hy hxy
  rcases x with _ | a
  · exact absurd (h none hx) (by simp [pyTruthyStr])
  rcases y with _ | b
  · exact absurd (h none hy) (by simp [pyTruthyStr])
  simp only [orEmpty] at hxy
  rw [hxy]

/-- Claim C3, amended: for non-placeholder inputs whose uuids are present
and pairwise distinct, appending the synthesizer's placeholders and
rebuilding under the lineage scheme yields a forest in which every node
whose subvolume references a (truthy) lineage parent finds a node with
that identifier in its own tree. -/
theorem claim_C3_no_orphans_amended (subvols : List Subvolume)
    (hplace : ∀ sv ∈ subvols, sv.deleted = false)
    (htruthy : ∀ sv ∈ subvols, pyTruthyStr sv.uuidF = true)
    (hnodup : (subvols.map (fun sv => sv.uuidF)).Nodup) :
    ∃ F, get_forest (subvols ++ Btrfs.get_deleted_subvols subvols) "snap" =
        .ok F ∧
      ∀ t ∈ F, ∀ n ∈ t, pyTruthyStr (n.data.parent "snap") = true →
        t.containsId (orEmpty (n.data.parent "snap")) = true := by
  have htruthy_all : ∀ sv ∈ subvols ++ Btrfs.get_deleted_subvols subvols,
      pyTruthyStr sv.uuidF = true := by
    intro sv hsv
    rcases List.mem_append.mp hsv with h | h
    · exact htruthy sv h
    · obtain ⟨p, rfl, -, hpne⟩ := get_deleted_elem subvols sv h
      simpa [Subvolume.from_deleted, pyTruthyStr] using hpne
  have huuid_all : ((subvols ++ Btrfs.get_deleted_subvols subvols).map
      (fun sv => sv.uuidF)).Nodup := by
    rw [List.map_append, List.nodup_append]
    refine ⟨hnodup, get_deleted_uuid_nodup subvols, ?_⟩
    intro u hu1 hu2
    obtain ⟨d, hd, hdu⟩ := List.mem_map.mp hu2
    obtain ⟨p, rfl, habs, -⟩ := get_deleted_elem subvols d hd
    apply habs
    obtain ⟨sv, hsv, hsvu⟩ := List.mem_map.mp hu1
    refine List.mem_map.mpr ⟨sv, hsv, ?_⟩
    rw [id_snap, hsvu, ← hdu]
    rfl
  have heff_eq : (subvols ++ Btrfs.get_deleted_subvols subvols).map
      (effId "snap") = ((subvols ++ Btrfs.get_deleted_subvols subvols).map
        (fun sv => sv.uuidF)).map orEmpty := by
    rw [List.map_map]
    refine List.map_congr_left ?_
    intro sv _
    simp [effId, id_snap]
  have hids_all : ((subvols ++ Btrfs.get_deleted_subvols subvols).map
      (effId "snap")).Nodup := by
    rw [heff_eq]
    exact nodup_orEmpty_map _
      (fun o ho => by
        obtain ⟨sv, hsv, rfl⟩ := List.mem_map.mp ho
        exact htruthy_all sv hsv)
      huuid_all
  have hids_all2 : ((subvols ++ Btrfs.get_deleted_subvols subvols).map
      (effId "snap") ++ forestIds []).Nodup := by
    simpa [forestIds] using hids_all
  obtain ⟨F, hloop, -, -, hgood⟩ := forest_loop_attach
    (subvols ++ Btrfs.get_deleted_subvols subvols).length
    (subvols ++ Btrfs.get_deleted_subvols subvols) [] "snap" (le_refl _)
    huuid_all hids_all2
  refine ⟨F, hloop, ?_⟩
  refine hgood (fun t ht => absurd ht (List.not_mem_nil t)) ?_
  intro sv hsv htr
  refine Or.inr (Or.inl ?_)
  rcases List.mem_append.mp hsv with hmemv | hmemv
  · have hto : sv.parent "snap" = some (orEmpty (sv.parent "snap")) ∧
        orEmpty (sv.parent "snap") ≠ "" :=
      (truthyOrEmpty_iff (sv.parent "snap") _).mp ⟨htr, rfl⟩
    by_cases hpres : some (orEmpty (sv.parent "snap")) ∈
        subvols.map (fun sv2 => sv2.id "snap")
    · obtain ⟨u, hu, hup⟩ := List.mem_map.mp hpres
      refine List.mem_map.mpr ⟨u, List.mem_append.mpr (Or.inl hu), ?_⟩
      rw [effId, hup]
      rfl
    · have hmem2 := get_deleted_mem_of subvols (orEmpty (sv.parent "snap"))
        ⟨sv, hmemv, hto.1, hto.2⟩ hpres
      refine List.mem_map.mpr
        ⟨Subvolume.from_deleted (orEmpty (sv.parent "snap")),
          List.mem_append.mpr (Or.inr hmem2), rfl⟩
  · obtain ⟨p, rfl, -, -⟩ := get_deleted_elem subvols sv hmemv
    have hnone : (Subvolume.from_deleted p).parent "snap" = none := rfl
    rw [hnone] at htr
    cases htr

/-- Counterexample to C3 as stated: for an input with the duplicate uuid
`u` (and no missing parents, so the synthesizer adds nothing), rebuilding
under the lineage scheme raises `DuplicatedNodeIdError` — no forest is
produced at all. -/
theorem claim_C3_counterexample :
    get_forest ([exSnapD, exSnapQ, exSnapE] ++
        Btrfs.get_deleted_subvols [exSnapD, exSnapQ, exSnapE]) "snap" =
      Except.error BErr.dupNode := by decide

/-- Witness for the amended C3: one snapshot whose lineage parent is
missing; after synthesis the rebuilt forest resolves its reference. -/
theorem claim_C3_witness :
    ∃ F, get_forest ([exSnapMissingParentW] ++
        Btrfs.get_deleted_subvols [exSnapMissingParentW]) "snap" =
        .ok F ∧
      ∀ t ∈ F, ∀ n ∈ t, pyTruthyStr (n.data.parent "snap") = true →
        t.containsId (orEmpty (n.data.parent "snap")) = true :=
  claim_C3_no_orphans_amended [exSnapMissingParentW] (by decide) (by decide)
    (by decide)

/-! ## C9: the sorter preserves nodes and parent/child structure -/

/-- Round trip between forests and lists. -/
theorem toList_ofList (l : List RTree) : (RForest.ofList l).toList = l := by
  induction l with
  | nil => rfl
  | cons t ts ih => simp [RForest.ofList, RForest.toList, ih]

/-- The nodes of a forest are the nodes of its trees in order. -/
theorem nodeInfos_forest_eq : ∀ cs : RForest,
    RForest.nodeInfos cs = cs.toList.flatMap RTree.nodeInfos
  | .nil => rfl
  | .cons t f => by
    simp [RForest.nodeInfos, RForest.toList, nodeInfos_forest_eq f]

/-- The edges of a forest under a parent are those of its trees plus the
links to the parent, in order. -/
theorem edgesUnder_forest_eq (p : String) : ∀ cs : RForest,
    RForest.edgesUnder p cs =
      cs.toList.flatMap
        (fun c => (p, c.rootInfo.ident) :: RTree.edges c)
  | .nil => rfl
  | .cons t f => by
    simp [RForest.edgesUnder, RForest.toList, edgesUnder_forest_eq p f]

/-- Stable insertion permutes the element onto the list. -/
theorem insertPy_perm (key : RTree → Int) (rev : Bool) (x : RTree)
    (l : List RTree) : (insertPy key rev x l).Perm (x :: l) := by
  induction l with
  | nil => exact List.Perm.refl _
  | cons y ys ih =>
    by_cases hc : (if rev then key x ≤ key y else key y ≤ key x)
    · rw [insertPy, if_pos hc]
      exact (ih.cons y).trans (List.Perm.swap x y ys)
    · rw [insertPy, if_neg hc]

/-- The modelled Python `sorted` is a permutation. -/
theorem pySortedBy_perm (key : RTree → Int) (rev : Bool) (l : List RTree) :
    (pySortedBy key rev l).Perm l := by
  have hgen : ∀ l acc : List RTree,
      (l.foldl (fun a x => insertPy key rev x a) acc).Perm (acc ++ l) := by
    intro l
    induction l with
    | nil => intro acc; simp
    | cons x xs ih =>
      intro acc
      refine (ih (insertPy key rev x acc)).trans ?_
      refine ((insertPy_perm key rev x acc).append_right xs).trans ?_
      exact List.perm_middle.symm
  simpa using hgen l []

/-- Sorting never changes the root node. -/
theorem sort_tree_rootInfo (f : TreeSorter) (rev : Bool) :
    ∀ (fuel : Nat) (t : RTree),
      (sort_tree f rev fuel t).rootInfo = t.rootInfo := by
  intro fuel t
  match fuel, t with
  | 0, t => rfl
  | fuel + 1, .node info cs => rfl

/-- Sorting permutes the node multiset of a tree. -/
theorem sort_tree_nodeInfos (f : TreeSorter) (rev : Bool) (fuel : Nat) :
    ∀ t : RTree,
      ((sort_tree f rev fuel t).nodeInfos).Perm t.nodeInfos := by
  induction fuel with
  | zero => intro t; exact List.Perm.refl _
  | succ fuel ih =>
    intro t
    cases t with
    | node info cs =>
      simp only [sort_tree, RTree.nodeInfos, nodeInfos_forest_eq,
        toList_ofList]
      refine List.Perm.cons info ?_
      rw [List.flatMap_map]
      refine List.Perm.trans
        (List.Perm.flatMap_left _ (fun c _ => ih c)) ?_
      exact (pySortedBy_perm _ rev cs.toList).flatMap_right RTree.nodeInfos

/-- Sorting permutes the parent/child edge multiset of a tree. -/
theorem sort_tree_edges (f : TreeSorter) (rev : Bool) (fuel : Nat) :
    ∀ t : RTree,
      ((sort_tree f rev fuel t).edges).Perm t.edges := by
  induction fuel with
  | zero => intro t; exact List.Perm.refl _
  | succ fuel ih =>
    intro t
    cases t with
    | node info cs =>
      simp only [sort_tree, RTree.edges, edgesUnder_forest_eq, toList_ofList]
      rw [List.flatMap_map]
      have hpt : ∀ c ∈ pySortedBy
          (fun c => f (RTree.node info cs) c.rootInfo) rev cs.toList,
          ((info.ident, (sort_tree f rev fuel c).rootInfo.ident) ::
            (sort_tree f rev fuel c).edges).Perm
          ((info.ident, c.rootInfo.ident) :: RTree.edges c) := by
        intro c _
        rw [sort_tree_rootInfo]
        exact (ih c).cons _
      refine List.Perm.trans (List.Perm.flatMap_left _ hpt) ?_
      exact (pySortedBy_perm _ rev cs.toList).flatMap_right _

/-- Claim C9, amended: provided the forest's trees have pairwise disjoint
identifier sets and the generated pseudo-root identifier is fresh (the
condition `paste` enforces, raising `ValueError` otherwise), sorting
returns a forest with exactly the same nodes and exactly the same
parent/child identifier pairs; only sibling and root order may change. -/
theorem claim_C9_sort_preserves_amended (f : TreeSorter) (rev : Bool)
    (pseudoId : String) (forest : List RTree)
    (hpaste : ∃ ids, pasteAll [pseudoId] forest = Except.ok ids) :
    ∃ F, sort_forest f rev pseudoId forest = .ok F ∧
      (rforestInfos F).Perm (rforestInfos forest) ∧
      (rforestEdges F).Perm (rforestEdges forest) := by
  obtain ⟨ids, hids⟩ := hpaste
  have hF : sort_forest f rev pseudoId forest = .ok
      ((pySortedBy (fun c => f (RTree.node ⟨pseudoId, pseudoId, none⟩
          (RForest.ofList forest)) c.rootInfo) rev forest).map
        (sort_tree f rev (RForest.size (RForest.ofList forest)))) := by
    simp only [sort_forest, hids, RTree.size, sort_tree, RTree.childForest,
      toList_ofList]
  refine ⟨_, hF, ?_, ?_⟩
  · simp only [rforestInfos]
    rw [List.flatMap_map]
    refine List.Perm.trans
      (List.Perm.flatMap_left _
        (fun c _ => sort_tree_nodeInfos f rev _ c)) ?_
    exact (pySortedBy_perm _ rev forest).flatMap_right _
  · simp only [rforestEdges]
    rw [List.flatMap_map]
    refine List.Perm.trans
      (List.Perm.flatMap_left _ (fun c _ => sort_tree_edges f rev _ c)) ?_
    exact (pySortedBy_perm _ rev forest).flatMap_right _

/-- Counterexample to C9 as stated: two trees sharing the root identifier
`a` make `paste` raise `ValueError`, so no sorted forest is produced for
that input. -/
theorem claim_C9_counterexample :
    sort_forest (fun _ _ => 0) false "r" [rleaf "a", rleaf "a"] =
      Except.error "ValueError" := rfl

/-- Witness for the amended C9 at a concrete two-tree forest. -/
theorem claim_C9_witness :
    ∃ F, sort_forest (fun _ n => (n.ident.length : Int)) false "r"
        [rpair "b" "c", rleaf "a"] = .ok F ∧
      (rforestInfos F).Perm (rforestInfos [rpair "b" "c", rleaf "a"]) ∧
      (rforestEdges F).Perm (rforestEdges [rpair "b" "c", rleaf "a"]) :=
  claim_C9_sort_preserves_amended (fun _ n => (n.ident.length : Int)) false
    "r" [rpair "b" "c", rleaf "a"] ⟨["r", "b", "c", "a"], rfl⟩

end Btrview
